import Mathlib

/-!
Verification of the `vertex` puzzle engine: a shallow embedding of the mesh
model (`src/geometry/mod.rs`, `PuzzleData`) and the puzzle state machine
(`src/puzzle_state/mod.rs`, `PuzzleState`), together with proofs of the
specified invariants and functional properties.

Modelling conventions:
- Rust `u32`/`usize` values become `Nat` (all arithmetic in the state machine
  stays far below `2^32`; the remaining-count decrement `triangle_reqs[t] -= 1`
  is Nat-truncated subtraction, and we prove positivity wherever the source
  would decrement, so the model agrees with the non-panicking executions).
- `HashSet<T>` becomes a `List T` kept duplicate-free by inserting with a
  membership check, mirroring set semantics; iteration order of a hash set is
  unspecified in Rust, so the model fixes one order (all properties proved are
  independent of that order).
- `HashMap<K, V>` becomes `K → Option V`; a key's absence is `none`.
  The panicking `map[&k]` indexing used in `disconnect_from_vertex` is modelled
  by returning `none` from that operation (panic), so it has type
  `… → Option PuzzleState`.
- Floating point data (vertex coordinates, colors, bounding boxes) never
  affects any of the proved properties; coordinate tokens are kept as raw
  strings and their `f32` parse is modelled as integer-literal recognition.
-/

namespace Vertex

/-- An edge is a pair of vertex indices (canonical form: smaller first). -/
abbrev Edge := Nat × Nat

/-- A triangle's three vertex indices (the color index is irrelevant to the
state machine and dropped here; parsing keeps it, see `ParseAcc`). -/
abbrev Tri := Nat × Nat × Nat

/-- Sort a pair into nondecreasing order. -/
def sort2 (a b : Nat) : Nat × Nat := if a ≤ b then (a, b) else (b, a)

/-- Sort three vertex indices, as `sorted.sort()` does on the 3-element vec in
`from_reader`'s adjacency pass. -/
def sort3 (t : Tri) : Tri :=
  let p := sort2 t.1 t.2.1
  let q := sort2 p.2 t.2.2
  let r := sort2 p.1 q.1
  (r.1, r.2, q.2)

/-- The three canonical edges of a triangle:
`[(sorted[0],sorted[1]), (sorted[1],sorted[2]), (sorted[0],sorted[2])]`
(geometry/mod.rs line 97). -/
def edgesOfTri (t : Tri) : List Edge :=
  let s := sort3 t
  [(s.1, s.2.1), (s.2.1, s.2.2), (s.1, s.2.2)]

/-- The mesh model: vertex count plus triangle list. All adjacency indices of
`PuzzleData` are derived from these, exactly as `from_reader` builds them in
one pass over the triangles (geometry/mod.rs lines 93-108). -/
structure PuzzleData where
  numVertices : Nat
  tris : List Tri

/-- Model of `out.edge_to_triangles.entry(edge).or_insert(vec![]).push(idx)`:
append triangle index `i` to the list stored at key `e`. -/
def e2tInsert (m : Edge → List Nat) (e : Edge) (i : Nat) : Edge → List Nat :=
  fun x => if x = e then m e ++ [i] else m x

/-- The edge-to-triangles index built by folding over the enumerated triangle
list: for each triangle, push its index onto the entry of each of its three
canonical edges (geometry/mod.rs lines 94-102). -/
def buildE2T (tris : List Tri) : Edge → List Nat :=
  (tris.enum).foldl
    (fun m p => (edgesOfTri p.2).foldl (fun m e => e2tInsert m e p.1) m)
    (fun _ => [])

def PuzzleData.edge_to_triangles (d : PuzzleData) : Edge → List Nat :=
  buildE2T d.tris

/-- Query `triangles_with_edge`: `edge_to_triangles.get(edge)`; the key is present
iff at least one triangle index was pushed for it. -/
def PuzzleData.triangles_with_edge (d : PuzzleData) (e : Edge) : Option (List Nat) :=
  if d.edge_to_triangles e = [] then none else some (d.edge_to_triangles e)

/-- The canonical edges appearing in at least one triangle: exactly the keys
of `edge_to_triangles`. -/
def meshEdges (tris : List Tri) : List Edge :=
  (tris.map edgesOfTri).flatten.dedup

/-- Index `vertices_to_edges`: for each key edge of `edge_to_triangles`, the edge is
added to the set of both endpoints (geometry/mod.rs lines 104-108); so the set
at `v` is the incident mesh edges of `v`. -/
def PuzzleData.vertices_to_edges (d : PuzzleData) (v : Nat) : List Edge :=
  (meshEdges d.tris).filter (fun e => e.1 = v ∨ e.2 = v)

/-- Query `num_edges_from_vertex`: `vertices_to_edges.get(&v).map(|s| s.len()).unwrap_or(0)`. -/
def PuzzleData.num_edges_from_vertex (d : PuzzleData) (v : Nat) : Nat :=
  (d.vertices_to_edges v).length

/-- Query `get_edges_for_triangle`: `triangle_to_edges[&t].to_vec()`. The map holds
an entry for every `t < tris.length` (built in the same pass as
`edge_to_triangles`); the state machine only queries such `t`, so the
out-of-range default here is never exercised. -/
def PuzzleData.get_edges_for_triangle (d : PuzzleData) (t : Nat) : List Edge :=
  edgesOfTri (d.tris.getD t (0, 0, 0))

def PuzzleData.num_triangles (d : PuzzleData) : Nat := d.tris.length

/-- Validity `is_valid_edge`: both indices within vertex bounds (geometry/mod.rs 127-129). -/
def PuzzleData.is_valid_edge (d : PuzzleData) (e : Edge) : Bool :=
  decide (e.1 < d.numVertices) && decide (e.2 < d.numVertices)

/-- Well-formedness of one triangle as enforced by `from_reader`: vertex
indices in range and pairwise distinct. -/
def WFTri (nv : Nat) (t : Tri) : Prop :=
  t.1 < nv ∧ t.2.1 < nv ∧ t.2.2 < nv ∧ t.1 ≠ t.2.1 ∧ t.1 ≠ t.2.2 ∧ t.2.1 ≠ t.2.2

instance (nv : Nat) (t : Tri) : Decidable (WFTri nv t) := by
  unfold WFTri; infer_instance

/-- Well-formedness of a mesh: every triangle passed `from_reader`'s checks. -/
def WF (d : PuzzleData) : Prop := ∀ t ∈ d.tris, WFTri d.numVertices t

instance (d : PuzzleData) : Decidable (WF d) := by
  unfold WF; infer_instance

/-! ## The puzzle state machine (src/puzzle_state/mod.rs) -/

/-- Mutable puzzle session state; field names and types mirror the Rust
struct (lists model `HashSet`s, `Nat → Option _` models `HashMap`s). -/
structure PuzzleState where
  triangle_reqs : List Nat
  unlocked_triangles : List Nat
  connected_edges : List Edge
  connected_edges_by_vertex : Nat → Option (List Edge)
  permanent_edges_by_vertex : Nat → Option Nat
  permanent_edges : List Edge
  permanent_vertices : List Nat

/-- Canonicalization `let edge_ordered = if edge.0 > edge.1 \x7b (edge.1, edge.0) \x7d else \x7b *edge \x7d`. -/
def canon (e : Edge) : Edge := if e.2 < e.1 then (e.2, e.1) else e

/-- Model of `HashSet::insert`: add if absent. -/
def hsInsert {α : Type} [DecidableEq α] (l : List α) (a : α) : List α :=
  if a ∈ l then l else a :: l

/-- Model of `map.entry(k).or_insert(HashSet::new()).insert(e)`. -/
def entryInsert (m : Nat → Option (List Edge)) (k : Nat) (e : Edge) :
    Nat → Option (List Edge) :=
  fun x => if x = k then some (hsInsert ((m k).getD []) e) else m x

/-- Model of `map.entry(k).and_modify(|s| s.remove(&e))`: only touches an existing
entry. -/
def entryRemove (m : Nat → Option (List Edge)) (k : Nat) (e : Edge) :
    Nat → Option (List Edge) :=
  fun x => if x = k then (m k).map (fun l => l.erase e) else m x

/-- Model of `*map.entry(k).or_insert(0) += 1`. -/
def bump (m : Nat → Option Nat) (k : Nat) : Nat → Option Nat :=
  fun x => if x = k then some ((m k).getD 0 + 1) else m x

/-- Connected edges currently recorded at a vertex (empty if the map has no
entry for it). -/
def connAt (s : PuzzleState) (v : Nat) : List Edge :=
  (s.connected_edges_by_vertex v).getD []

/-- Permanent-edge counter at a vertex (0 if the map has no entry for it). -/
def pcvD (s : PuzzleState) (v : Nat) : Nat :=
  (s.permanent_edges_by_vertex v).getD 0

/-- Constructor `PuzzleState::from_data`. -/
def PuzzleState.from_data (d : PuzzleData) : PuzzleState where
  triangle_reqs := List.replicate d.tris.length 3
  unlocked_triangles := []
  connected_edges := []
  connected_edges_by_vertex := fun _ => none
  permanent_edges_by_vertex := fun _ => none
  permanent_edges := []
  permanent_vertices := []

/-- Body of the permanence loop for one edge `ep` of a just-unlocked triangle
(puzzle_state/mod.rs lines 40-49): bump both endpoint counters, insert into
`permanent_edges`, and mark each endpoint permanent whose counter now equals
its total incident-mesh-edge count. -/
def unlockEdgeStep (d : PuzzleData) (s : PuzzleState) (ep : Edge) : PuzzleState :=
  let pcv := bump (bump s.permanent_edges_by_vertex ep.1) ep.2
  let pv1 := if (pcv ep.1).getD 0 = d.num_edges_from_vertex ep.1 then
      hsInsert s.permanent_vertices ep.1 else s.permanent_vertices
  let pv2 := if (pcv ep.2).getD 0 = d.num_edges_from_vertex ep.2 then
      hsInsert pv1 ep.2 else pv1
  { s with
    permanent_edges_by_vertex := pcv
    permanent_edges := hsInsert s.permanent_edges ep
    permanent_vertices := pv2 }

/-- Body of `connect_edge`'s triangle loop for one triangle id `t`
(puzzle_state/mod.rs lines 35-51): decrement the remaining count and, when it
reaches 0, unlock the triangle and run the permanence loop over its edges. -/
def connectTriStep (d : PuzzleData) (s : PuzzleState) (t : Nat) : PuzzleState :=
  let reqs := s.triangle_reqs.set t (s.triangle_reqs.getD t 0 - 1)
  let s1 := { s with triangle_reqs := reqs }
  if reqs.getD t 0 = 0 then
    (d.get_edges_for_triangle t).foldl (unlockEdgeStep d)
      { s1 with unlocked_triangles := hsInsert s1.unlocked_triangles t }
  else s1

/-- Operation `PuzzleState::connect_edge` (puzzle_state/mod.rs lines 27-54). -/
def connect_edge (d : PuzzleData) (s : PuzzleState) (e : Edge) : PuzzleState :=
  let c := canon e
  if c ∈ s.connected_edges then s
  else
    let s1 := { s with
      connected_edges := c :: s.connected_edges
      connected_edges_by_vertex :=
        entryInsert (entryInsert s.connected_edges_by_vertex e.1 c) e.2 c }
    match d.triangles_with_edge c with
    | none => s1
    | some l => l.foldl (connectTriStep d) s1

/-- Body of `disconnect_edge`'s triangle loop for one triangle id `t`
(puzzle_state/mod.rs lines 63-66): drop the triangle from `unlocked_triangles`
if its remaining count was 0, then increment the remaining count. -/
def disconnectTriStep (s : PuzzleState) (t : Nat) : PuzzleState :=
  { s with
    unlocked_triangles :=
      if s.triangle_reqs.getD t 0 = 0 then s.unlocked_triangles.erase t
      else s.unlocked_triangles
    triangle_reqs := s.triangle_reqs.set t (s.triangle_reqs.getD t 0 + 1) }

/-- Operation `PuzzleState::disconnect_edge` (puzzle_state/mod.rs lines 56-68). -/
def disconnect_edge (d : PuzzleData) (s : PuzzleState) (e : Edge) : PuzzleState :=
  let c := canon e
  if c ∈ s.connected_edges then
    let s1 := { s with
      connected_edges := s.connected_edges.erase c
      connected_edges_by_vertex :=
        entryRemove (entryRemove s.connected_edges_by_vertex e.1 c) e.2 c }
    match d.triangles_with_edge c with
    | none => s1
    | some l => l.foldl disconnectTriStep s1
  else s

/-- Operation `PuzzleState::disconnect_from_vertex` (puzzle_state/mod.rs lines 70-80).
The guard reads `connected_edges_by_vertex[&vertex]` and
`permanent_edges_by_vertex[&vertex]` with the panicking `Index` operator:
a missing entry for either map is a panic, modelled as `none`. -/
def disconnect_from_vertex (d : PuzzleData) (s : PuzzleState) (v : Nat) :
    Option PuzzleState :=
  match s.connected_edges_by_vertex v, s.permanent_edges_by_vertex v with
  | some ce, some pc =>
      if v ∈ s.permanent_vertices ∧ ce.length = pc then some s
      else
        some (ce.foldl (fun s e =>
          if e ∈ s.permanent_edges then s else disconnect_edge d s e) s)
  | _, _ => none

/-- Query `is_finished`: `unlocked_triangles.len() == triangle_reqs.len()`. -/
def is_finished (s : PuzzleState) : Bool :=
  s.unlocked_triangles.length == s.triangle_reqs.length

/-- One caller-visible operation of the state machine. -/
inductive Op where
  | connect (e : Edge)
  | disconnect (e : Edge)
  | fromVertex (v : Nat)

/-- Run one operation (panic = `none`, propagated). -/
def applyOp (d : PuzzleData) (s : PuzzleState) : Op → Option PuzzleState
  | .connect e => some (connect_edge d s e)
  | .disconnect e => some (disconnect_edge d s e)
  | .fromVertex v => disconnect_from_vertex d s v

/-- Run a sequence of operations. -/
def applyOps (d : PuzzleData) : PuzzleState → List Op → Option PuzzleState
  | s, [] => some s
  | s, op :: rest =>
      match applyOp d s op with
      | some s' => applyOps d s' rest
      | none => none

/-- States reachable from a freshly constructed `PuzzleState` by the three
mutation entry points, on caller-validated inputs (`is_valid_edge` for edges,
in-bounds indices for vertices), counting only the non-panicking
`disconnect_from_vertex` calls. -/
inductive Reachable (d : PuzzleData) : PuzzleState → Prop where
  | init : Reachable d (PuzzleState.from_data d)
  | connect {s e} : Reachable d s → d.is_valid_edge e = true →
      Reachable d (connect_edge d s e)
  | disconnect {s e} : Reachable d s → d.is_valid_edge e = true →
      Reachable d (disconnect_edge d s e)
  | fromVertex {s v s'} : Reachable d s → v < d.numVertices →
      disconnect_from_vertex d s v = some s' → Reachable d s'

/-- Unfolded shape of `buildE2T`'s entry for one edge: the triangle indices are
laid down left to right, each triangle contributing one copy of its index per
matching canonical edge. -/
def e2tAux (ts : List Tri) (k : Nat) (x : Edge) : List Nat :=
  match ts with
  | [] => []
  | t :: ts => List.replicate ((edgesOfTri t).count x) k ++ e2tAux ts (k + 1) x
/-- The state `connect_edge` records the new edge into, before the triangle
loop runs. -/
def connectRecord (s : PuzzleState) (e : Edge) : PuzzleState :=
  { s with
    connected_edges := canon e :: s.connected_edges
    connected_edges_by_vertex :=
      entryInsert (entryInsert s.connected_edges_by_vertex e.1 (canon e)) e.2 (canon e) }
/-- The state `disconnect_edge` removes the edge from, before the triangle
loop runs. -/
def disconnectRecord (s : PuzzleState) (e : Edge) : PuzzleState :=
  { s with
    connected_edges := s.connected_edges.erase (canon e)
    connected_edges_by_vertex :=
      entryRemove (entryRemove s.connected_edges_by_vertex e.1 (canon e)) e.2 (canon e) }
/-- The number of canonical edges of triangle `t` currently connected. -/
def connCount (d : PuzzleData) (s : PuzzleState) (t : Nat) : Nat :=
  ((d.get_edges_for_triangle t).filter (fun e => decide (e ∈ s.connected_edges))).length
/-- Consistency of `unlocked_triangles` with the remaining counts: the set
holds exactly the in-range triangles whose remaining count is 0. -/
def UInv (d : PuzzleData) (s : PuzzleState) : Prop :=
  s.triangle_reqs.length = d.tris.length ∧
  (∀ u, u ∈ s.unlocked_triangles ↔
    (u < d.tris.length ∧ s.triangle_reqs.getD u 0 = 0)) ∧
  s.unlocked_triangles.Nodup

/-- Consistency of `connected_edges` (a set of canonical edges) with its
by-vertex index. -/
def CInv (s : PuzzleState) : Prop :=
  s.connected_edges.Nodup ∧
  (∀ e ∈ s.connected_edges, canon e = e) ∧
  (∀ v x, x ∈ connAt s v ↔ (x ∈ s.connected_edges ∧ (x.1 = v ∨ x.2 = v))) ∧
  (∀ v, (connAt s v).Nodup)

/-- Consistency of the permanence bookkeeping: the by-vertex counter bounds
the number of distinct permanent edges at the vertex, and a vertex is marked
permanent exactly when its (possibly over-counting) counter has reached its
total incident-mesh-edge count. -/
def PInv (d : PuzzleData) (s : PuzzleState) : Prop :=
  (∀ v, ((s.permanent_edges.filter (fun e => decide (e.1 = v ∨ e.2 = v))).length
      ≤ pcvD s v)) ∧
  (∀ v, v ∈ s.permanent_vertices ↔
    (1 ≤ d.num_edges_from_vertex v ∧ d.num_edges_from_vertex v ≤ pcvD s v)) ∧
  s.permanent_edges.Nodup

/-- The central remaining-count identity (spec section 8, first property). -/
def ReqsVal (d : PuzzleData) (s : PuzzleState) : Prop :=
  ∀ t, t < d.tris.length → s.triangle_reqs.getD t 0 = 3 - connCount d s t

def Inv (d : PuzzleData) (s : PuzzleState) : Prop :=
  UInv d s ∧ CInv s ∧ PInv d s ∧ ReqsVal d s

/-! ## Mesh-file parsing (geometry/mod.rs `from_reader`, lines 28-91) -/

/-- The error enum of geometry/mod.rs lines 5-13. -/
inductive GeometryError where
  | ParseFailure
  | InvalidVertex
  | InvalidTriangle
  | InvalidColor
deriving DecidableEq

/-- Accumulated parse output: vertex coordinate tokens are kept raw (their
`f32` values never affect the properties verified here), colors as byte
triples, triangles as three vertex indices plus a color index. -/
structure ParseAcc where
  vertices : List (String × String)
  colors : List (Nat × Nat × Nat)
  triangles : List (Nat × Nat × Nat × Nat)
deriving DecidableEq

instance {E A : Type} [DecidableEq E] [DecidableEq A] : DecidableEq (Except E A)
  | Except.error a, Except.error b =>
      if h : a = b then Decidable.isTrue (h ▸ rfl)
      else Decidable.isFalse (fun hc => h (by cases hc; rfl))
  | Except.error _, Except.ok _ => Decidable.isFalse (fun hc => Except.noConfusion hc)
  | Except.ok _, Except.error _ => Decidable.isFalse (fun hc => Except.noConfusion hc)
  | Except.ok a, Except.ok b =>
      if h : a = b then Decidable.isTrue (h ▸ rfl)
      else Decidable.isFalse (fun hc => h (by cases hc; rfl))

/-- Decimal digits of a token; `none` when a non-digit occurs. -/
def parseDigits : List Char → Nat → Option Nat
  | [], acc => some acc
  | ch :: rest, acc =>
      if ch.isDigit then parseDigits rest (acc * 10 + (ch.toNat - 48))
      else none

/-- Numeric parse of a token on the plain-decimal subset (no sign; Rust's
integer parses also accept a leading `+`, which no mesh file uses). -/
def parseNat? (s : String) : Option Nat :=
  match s.data with
  | [] => none
  | l => parseDigits l 0

/-- Model of `parse::<u8>()`: the value must fit in a byte. -/
def parseU8? (s : String) : Option Nat :=
  match parseNat? s with
  | some n => if n ≤ 255 then some n else none
  | none => none

/-- Model of `parse::<u32>()`. -/
def parseU32? (s : String) : Option Nat :=
  match parseNat? s with
  | some n => if n < 4294967296 then some n else none
  | none => none

/-- Model of `parse::<f32>()` on a coordinate token: recognition of the
integer-literal subset (the parsed value itself is irrelevant here:
coordinates only feed rendering and `get_vertex_near`, outside the verified
properties). -/
def parseF32ok (s : String) : Bool := (parseNat? s).isSome

/-- Vertex-index token of a triangle line: `parse::<u32>` followed by the
`idx as usize >= out.vertices.len()` bound check (geometry/mod.rs 66-69). -/
def parseVertIdx (acc : ParseAcc) (s : String) : Except GeometryError Nat :=
  match parseU32? s with
  | none => Except.error GeometryError.InvalidTriangle
  | some i =>
      if acc.vertices.length ≤ i then Except.error GeometryError.InvalidTriangle
      else Except.ok i

/-- One line of `from_reader`'s parsing loop (geometry/mod.rs lines 41-91):
lines are classified purely by token count; the duplicate-vertex check is the
sort-dedup-length test of lines 71-77, equivalent to pairwise distinctness;
the color bound check of line 80 is the *inclusive* comparison
`color_idx as usize > out.colors.len()`. -/
def processLine (acc : ParseAcc) (toks : List String) : Except GeometryError ParseAcc :=
  match toks with
  | [a, b] =>
      if parseF32ok a && parseF32ok b then
        Except.ok { acc with vertices := acc.vertices ++ [(a, b)] }
      else Except.error GeometryError.InvalidVertex
  | [r, g, bl] =>
      match parseU8? r, parseU8? g, parseU8? bl with
      | some r', some g', some b' =>
          Except.ok { acc with colors := acc.colors ++ [(r', g', b')] }
      | _, _, _ => Except.error GeometryError.InvalidColor
  | [v0, v1, v2, cs] =>
      match parseVertIdx acc v0 with
      | Except.error er => Except.error er
      | Except.ok i0 =>
        match parseVertIdx acc v1 with
        | Except.error er => Except.error er
        | Except.ok i1 =>
          match parseVertIdx acc v2 with
          | Except.error er => Except.error er
          | Except.ok i2 =>
            if i0 = i1 ∨ i0 = i2 ∨ i1 = i2 then
              Except.error GeometryError.InvalidTriangle
            else
              match parseU32? cs with
              | none => Except.error GeometryError.InvalidTriangle
              | some k =>
                  if acc.colors.length < k then
                    Except.error GeometryError.InvalidTriangle
                  else
                    Except.ok { acc with triangles := acc.triangles ++ [(i0, i1, i2, k)] }
  | _ => Except.error GeometryError.ParseFailure

/-- Loop of `from_reader` over pre-tokenized lines
(`l.split_whitespace().collect()` per line). -/
def from_reader (lines : List (List String)) : Except GeometryError ParseAcc :=
  lines.foldlM processLine ⟨[], [], []⟩

/-! ## Concrete meshes and runs used to instantiate the theorems -/

/-- Scenario A of the spec: a single triangle on 3 vertices. -/
def dataA : PuzzleData := ⟨3, [(0, 1, 2)]⟩

def sA0 : PuzzleState := PuzzleState.from_data dataA

def sA1 : PuzzleState := connect_edge dataA sA0 (0, 1)

def sA2 : PuzzleState := connect_edge dataA sA1 (1, 2)

def sA3 : PuzzleState := connect_edge dataA sA2 (0, 2)

/-- A single triangle on 4 vertices; vertex 3 takes part in no triangle. -/
def dataB : PuzzleData := ⟨4, [(0, 1, 2)]⟩

def sB0 : PuzzleState := PuzzleState.from_data dataB

def sB1 : PuzzleState := connect_edge dataB sB0 (0, 1)

def sB2 : PuzzleState := connect_edge dataB sB1 (1, 2)

def sB3 : PuzzleState := connect_edge dataB sB2 (0, 2)

def sB4 : PuzzleState := connect_edge dataB sB3 (0, 3)

def sB5 : PuzzleState := disconnect_edge dataB sB4 (0, 1)

/-- Three triangles on 5 vertices: two unlockable triangles share edge (0,1)
at vertex 0, and a third triangle contributes mesh edge (0,4). -/
def dataE : PuzzleData := ⟨5, [(0, 1, 2), (0, 1, 3), (0, 3, 4)]⟩

def sE0 : PuzzleState := PuzzleState.from_data dataE

def sE1 : PuzzleState := connect_edge dataE sE0 (0, 1)

def sE2 : PuzzleState := connect_edge dataE sE1 (1, 2)

def sE3 : PuzzleState := connect_edge dataE sE2 (0, 2)

def sE4 : PuzzleState := connect_edge dataE sE3 (1, 3)

def sE5 : PuzzleState := connect_edge dataE sE4 (0, 3)

/-- A mesh with vertices but no triangles. -/
def dataN : PuzzleData := ⟨5, []⟩

/-! ## Basic lemmas about the set/map primitives -/

theorem canon_canon (e : Edge) : canon (canon e) = canon e := by
  unfold canon
  split_ifs <;> simp_all <;> omega

theorem canon_eq_self {e : Edge} (h : ¬ e.2 < e.1) : canon e = e := if_neg h

theorem canon_fst_le (e : Edge) : (canon e).1 ≤ (canon e).2 := by
  unfold canon
  split_ifs with h <;> first | (simp; omega) | omega

theorem canon_incident (e : Edge) (v : Nat) :
    ((canon e).1 = v ∨ (canon e).2 = v) ↔ (e.1 = v ∨ e.2 = v) := by
  unfold canon; split_ifs <;> simp <;> tauto

theorem mem_hsInsert {α : Type} [DecidableEq α] (l : List α) (a x : α) :
    x ∈ hsInsert l a ↔ x = a ∨ x ∈ l := by
  unfold hsInsert
  split_ifs with h
  · constructor
    · exact Or.inr
    · rintro (rfl | hx)
      exacts [h, hx]
  · exact List.mem_cons

theorem mem_hsInsert_self {α : Type} [DecidableEq α] (l : List α) (a : α) :
    a ∈ hsInsert l a := (mem_hsInsert l a a).mpr (Or.inl rfl)

theorem subset_hsInsert {α : Type} [DecidableEq α] (l : List α) (a : α) :
    l ⊆ hsInsert l a := fun _ hx => (mem_hsInsert l a _).mpr (Or.inr hx)

theorem nodup_hsInsert {α : Type} [DecidableEq α] {l : List α} (a : α) (h : l.Nodup) :
    (hsInsert l a).Nodup := by
  unfold hsInsert
  split_ifs with hm
  · exact h
  · simp [h, hm]

theorem entryInsert_getD (m : Nat → Option (List Edge)) (k : Nat) (e : Edge) (v : Nat) :
    ((entryInsert m k e) v).getD [] =
      if v = k then hsInsert ((m v).getD []) e else (m v).getD [] := by
  unfold entryInsert
  split_ifs with h <;> simp [h]

theorem entryRemove_getD (m : Nat → Option (List Edge)) (k : Nat) (e : Edge) (v : Nat) :
    ((entryRemove m k e) v).getD [] =
      if v = k then ((m v).getD []).erase e else (m v).getD [] := by
  unfold entryRemove
  split_ifs with h
  · subst h; cases m v <;> simp
  · rfl

theorem bump_getD (m : Nat → Option Nat) (k v : Nat) :
    ((bump m k) v).getD 0 = if v = k then (m v).getD 0 + 1 else (m v).getD 0 := by
  unfold bump
  split_ifs with h <;> simp [h]

theorem getD_set_self (l : List Nat) {t : Nat} (a : Nat) (h : t < l.length) :
    (l.set t a).getD t 0 = a := by
  rw [List.getD_eq_getElem?_getD, List.getElem?_set_eq_of_lt a h]; rfl

theorem getD_set_ne (l : List Nat) {t u : Nat} (a : Nat) (h : t ≠ u) :
    (l.set t a).getD u 0 = l.getD u 0 := by
  rw [List.getD_eq_getElem?_getD, List.getElem?_set_ne h, ← List.getD_eq_getElem?_getD]

theorem nodup_mem_erase {α : Type} [BEq α] [LawfulBEq α] {l : List α} (h : l.Nodup)
    {a b : α} : a ∈ l.erase b ↔ a ≠ b ∧ a ∈ l := by
  induction l with
  | nil => simp
  | cons x l ih =>
    rcases List.nodup_cons.mp h with ⟨hx, hl⟩
    rw [List.erase_cons]
    by_cases hxb : x = b
    · subst hxb
      simp only [beq_self_eq_true, if_pos, List.mem_cons]
      constructor
      · intro hal
        exact ⟨fun hab => hx (hab ▸ hal), Or.inr hal⟩
      · rintro ⟨hab, rfl | hal⟩
        · exact absurd rfl hab
        · exact hal
    · have : (x == b) = false := beq_false_of_ne hxb
      rw [this]
      simp only [if_neg Bool.false_ne_true, List.mem_cons, ih hl]
      constructor
      · rintro (rfl | ⟨hab, hal⟩)
        · exact ⟨hxb, Or.inl rfl⟩
        · exact ⟨hab, Or.inr hal⟩
      · rintro ⟨hab, rfl | hal⟩
        · exact Or.inl rfl
        · exact Or.inr ⟨hab, hal⟩

theorem nodup_erase {α : Type} [BEq α] [LawfulBEq α] {l : List α} (h : l.Nodup)
    (b : α) : (l.erase b).Nodup := by
  induction l with
  | nil => simp
  | cons x l ih =>
    rcases List.nodup_cons.mp h with ⟨hx, hl⟩
    rw [List.erase_cons]
    by_cases hxb : x = b
    · rw [if_pos (by simp [hxb])]
      exact hl
    · rw [if_neg (by simp [hxb])]
      refine List.nodup_cons.mpr ⟨fun hc => hx (List.erase_subset _ _ hc), ih hl⟩

theorem nodup_not_mem_erase {α : Type} [BEq α] [LawfulBEq α] {l : List α} (h : l.Nodup)
    (b : α) : b ∉ l.erase b := fun hc => ((nodup_mem_erase h).mp hc).1 rfl

/-! ## Structure of a well-formed triangle's edge list -/

theorem sort3_strict {t : Tri} (h1 : t.1 ≠ t.2.1) (h2 : t.1 ≠ t.2.2) (h3 : t.2.1 ≠ t.2.2) :
    (sort3 t).1 < (sort3 t).2.1 ∧ (sort3 t).2.1 < (sort3 t).2.2 := by
  obtain ⟨a, b, c⟩ := t
  simp only [sort3, sort2] at *
  split_ifs <;> simp_all <;> omega

theorem edgesOfTri_fst_lt {t : Tri} (h1 : t.1 ≠ t.2.1) (h2 : t.1 ≠ t.2.2)
    (h3 : t.2.1 ≠ t.2.2) : ∀ ep ∈ edgesOfTri t, ep.1 < ep.2 := by
  have hs := sort3_strict h1 h2 h3
  intro ep hep
  simp only [edgesOfTri, List.mem_cons, List.not_mem_nil, or_false] at hep
  rcases hep with rfl | rfl | rfl <;> simp <;> omega

theorem edgesOfTri_nodup {t : Tri} (h1 : t.1 ≠ t.2.1) (h2 : t.1 ≠ t.2.2)
    (h3 : t.2.1 ≠ t.2.2) : (edgesOfTri t).Nodup := by
  have hs := sort3_strict h1 h2 h3
  simp only [edgesOfTri, List.nodup_cons, List.mem_cons, List.not_mem_nil, or_false,
    List.nodup_nil, and_true, Prod.mk.injEq, not_or, not_and, ne_eq, true_implies,
    not_false_eq_true]
  omega

theorem edgesOfTri_canon {t : Tri} (h1 : t.1 ≠ t.2.1) (h2 : t.1 ≠ t.2.2)
    (h3 : t.2.1 ≠ t.2.2) : ∀ ep ∈ edgesOfTri t, canon ep = ep := by
  intro ep hep
  exact canon_eq_self (by have := edgesOfTri_fst_lt h1 h2 h3 ep hep; omega)

theorem edgesOfTri_length (t : Tri) : (edgesOfTri t).length = 3 := rfl

/-! ## Characterization of the edge-to-triangles index -/

theorem innerFold_apply (E : List Edge) (i : Nat) :
    ∀ (m : Edge → List Nat) (x : Edge),
      (E.foldl (fun m e => e2tInsert m e i) m) x = m x ++ List.replicate (E.count x) i := by
  induction E with
  | nil => intro m x; simp
  | cons e E ih =>
    intro m x
    rw [List.foldl_cons, ih]
    unfold e2tInsert
    by_cases hx : x = e
    · subst hx
      simp [List.count_cons, List.replicate_succ, List.append_assoc]
    · simp [hx, List.count_cons, Ne.symm hx]

theorem buildE2T_apply (ts : List Tri) (x : Edge) : buildE2T ts x = e2tAux ts 0 x := by
  have main : ∀ (ts : List Tri) (k : Nat) (m : Edge → List Nat) (x : Edge),
      ((List.enumFrom k ts).foldl
        (fun m p => (edgesOfTri p.2).foldl (fun m e => e2tInsert m e p.1) m) m) x =
        m x ++ e2tAux ts k x := by
    intro ts
    induction ts with
    | nil => intro k m x; simp [e2tAux]
    | cons t ts ih =>
      intro k m x
      rw [List.enumFrom_cons, List.foldl_cons, ih, innerFold_apply]
      simp [e2tAux, List.append_assoc]
  have henum : ts.enum = ts.enumFrom 0 := rfl
  unfold buildE2T
  rw [henum, main]
  simp

theorem mem_e2tAux {ts : List Tri} :
    ∀ {k t : Nat} {x : Edge},
      t ∈ e2tAux ts k x ↔
        ∃ j, j < ts.length ∧ t = k + j ∧ x ∈ edgesOfTri (ts.getD j (0, 0, 0)) := by
  induction ts with
  | nil => intro k t x; simp [e2tAux]
  | cons t0 ts ih =>
    intro k t x
    simp only [e2tAux, List.mem_append, List.mem_replicate, ih]
    constructor
    · rintro (⟨hc, rfl⟩ | ⟨j, hj, rfl, hx⟩)
      · exact ⟨0, by simp, by omega, by simpa using List.count_pos_iff.mp (Nat.pos_of_ne_zero hc)⟩
      · exact ⟨j + 1, by simpa using hj, by omega, by simpa using hx⟩
    · rintro ⟨j, hj, rfl, hx⟩
      cases j with
      | zero =>
        left
        refine ⟨?_, by omega⟩
        have : x ∈ edgesOfTri t0 := by simpa using hx
        have := List.count_pos_iff.mpr this
        omega
      | succ j =>
        right
        exact ⟨j, by simpa using hj, by omega, by simpa using hx⟩

theorem mem_edge_to_triangles {d : PuzzleData} {t : Nat} {x : Edge} :
    t ∈ d.edge_to_triangles x ↔
      t < d.tris.length ∧ x ∈ edgesOfTri (d.tris.getD t (0, 0, 0)) := by
  rw [PuzzleData.edge_to_triangles, buildE2T_apply, mem_e2tAux]
  constructor
  · rintro ⟨j, hj, rfl, hx⟩
    exact ⟨by omega, by simpa using hx⟩
  · rintro ⟨h1, h2⟩
    exact ⟨t, h1, by omega, h2⟩

theorem e2tAux_lb {ts : List Tri} {k t : Nat} {x : Edge} (h : t ∈ e2tAux ts k x) :
    k ≤ t := by
  obtain ⟨j, _, rfl, _⟩ := mem_e2tAux.mp h
  omega

theorem nodup_e2tAux {ts : List Tri} {x : Edge} :
    ∀ {k : Nat}, (∀ t ∈ ts, (edgesOfTri t).count x ≤ 1) → (e2tAux ts k x).Nodup := by
  induction ts with
  | nil => intro k _; simp [e2tAux]
  | cons t0 ts ih =>
    intro k h
    have hrep : (List.replicate ((edgesOfTri t0).count x) k).Nodup := by
      have hc : (edgesOfTri t0).count x ≤ 1 := h t0 (by simp)
      interval_cases hcc : (edgesOfTri t0).count x <;> simp
    have haux : (e2tAux ts (k + 1) x).Nodup := ih fun t ht => h t (by simp [ht])
    refine hrep.append haux (List.disjoint_left.mpr ?_)
    intro a ha hmem
    have h1 : a = k := (List.mem_replicate.mp ha).2
    have h2 : k + 1 ≤ a := e2tAux_lb hmem
    omega

theorem nodup_count_le_one {l : List Edge} (h : l.Nodup) (x : Edge) : l.count x ≤ 1 := by
  induction l with
  | nil => simp
  | cons a l ih =>
    rcases List.nodup_cons.mp h with ⟨ha, hl⟩
    rw [List.count_cons]
    by_cases hx : a = x
    · subst hx
      simp [List.count_eq_zero.mpr ha]
    · simp only [beq_iff_eq, hx, if_false]
      simpa using ih hl

theorem nodup_edge_to_triangles {d : PuzzleData} (hw : WF d) (x : Edge) :
    (d.edge_to_triangles x).Nodup := by
  rw [PuzzleData.edge_to_triangles, buildE2T_apply]
  refine nodup_e2tAux ?_
  intro t ht
  obtain ⟨_, _, _, ha, hb, hc⟩ := hw t ht
  exact nodup_count_le_one (edgesOfTri_nodup ha hb hc) x

theorem WFTri_getD {d : PuzzleData} (hw : WF d) {t : Nat} (ht : t < d.tris.length) :
    WFTri d.numVertices (d.tris.getD t (0, 0, 0)) := by
  apply hw
  rw [List.getD_eq_getElem?_getD, List.getElem?_eq_getElem ht]
  exact List.getElem_mem _

/-! ## Shape of the operations -/

theorem foldl_preserve {β γ : Type} (f : PuzzleState → β → PuzzleState)
    (g : PuzzleState → γ) (h : ∀ s b, g (f s b) = g s) :
    ∀ (l : List β) (s : PuzzleState), g (l.foldl f s) = g s := by
  intro l
  induction l with
  | nil => intro s; rfl
  | cons b l ih => intro s; rw [List.foldl_cons, ih, h]

theorem foldl_inv {β : Type} (P : PuzzleState → Prop) {f : PuzzleState → β → PuzzleState}
    {l : List β} (h : ∀ s b, b ∈ l → P s → P (f s b)) :
    ∀ s : PuzzleState, P s → P (l.foldl f s) := by
  induction l with
  | nil => intro s hs; exact hs
  | cons b l ih =>
    intro s hs
    rw [List.foldl_cons]
    exact ih (fun s b hb => h s b (List.mem_cons_of_mem _ hb)) _
      (h s b (List.mem_cons_self _ _) hs)

theorem unlockFold_reqs (d : PuzzleData) (E : List Edge) (s : PuzzleState) :
    (E.foldl (unlockEdgeStep d) s).triangle_reqs = s.triangle_reqs :=
  foldl_preserve (unlockEdgeStep d) (fun st => st.triangle_reqs) (fun _ _ => rfl) E s

theorem unlockFold_unlocked (d : PuzzleData) (E : List Edge) (s : PuzzleState) :
    (E.foldl (unlockEdgeStep d) s).unlocked_triangles = s.unlocked_triangles :=
  foldl_preserve (unlockEdgeStep d) (fun st => st.unlocked_triangles) (fun _ _ => rfl) E s

theorem unlockFold_conn (d : PuzzleData) (E : List Edge) (s : PuzzleState) :
    (E.foldl (unlockEdgeStep d) s).connected_edges = s.connected_edges :=
  foldl_preserve (unlockEdgeStep d) (fun st => st.connected_edges) (fun _ _ => rfl) E s

theorem unlockFold_cbv (d : PuzzleData) (E : List Edge) (s : PuzzleState) :
    (E.foldl (unlockEdgeStep d) s).connected_edges_by_vertex =
      s.connected_edges_by_vertex :=
  foldl_preserve (unlockEdgeStep d) (fun st => st.connected_edges_by_vertex)
    (fun _ _ => rfl) E s

theorem connectTriStep_reqs (d : PuzzleData) (s : PuzzleState) (t : Nat) :
    (connectTriStep d s t).triangle_reqs =
      s.triangle_reqs.set t (s.triangle_reqs.getD t 0 - 1) := by
  unfold connectTriStep
  dsimp only
  split_ifs with h
  · rw [unlockFold_reqs]
  · rfl

theorem connectTriStep_conn (d : PuzzleData) (s : PuzzleState) (t : Nat) :
    (connectTriStep d s t).connected_edges = s.connected_edges := by
  unfold connectTriStep
  dsimp only
  split_ifs with h
  · rw [unlockFold_conn]
  · rfl

theorem connectTriStep_cbv (d : PuzzleData) (s : PuzzleState) (t : Nat) :
    (connectTriStep d s t).connected_edges_by_vertex = s.connected_edges_by_vertex := by
  unfold connectTriStep
  dsimp only
  split_ifs with h
  · rw [unlockFold_cbv]
  · rfl

theorem connectTriStep_unlocked (d : PuzzleData) (s : PuzzleState) (t : Nat) :
    (connectTriStep d s t).unlocked_triangles =
      if (s.triangle_reqs.set t (s.triangle_reqs.getD t 0 - 1)).getD t 0 = 0 then
        hsInsert s.unlocked_triangles t
      else s.unlocked_triangles := by
  unfold connectTriStep
  dsimp only
  split_ifs with h
  · rw [unlockFold_unlocked]
  · rfl

theorem connFold_conn (d : PuzzleData) (L : List Nat) (s : PuzzleState) :
    (L.foldl (connectTriStep d) s).connected_edges = s.connected_edges :=
  foldl_preserve (connectTriStep d) (fun st => st.connected_edges)
    (fun s t => connectTriStep_conn d s t) L s

theorem connFold_cbv (d : PuzzleData) (L : List Nat) (s : PuzzleState) :
    (L.foldl (connectTriStep d) s).connected_edges_by_vertex =
      s.connected_edges_by_vertex :=
  foldl_preserve (connectTriStep d) (fun st => st.connected_edges_by_vertex)
    (fun s t => connectTriStep_cbv d s t) L s

theorem disconnFold_conn (L : List Nat) (s : PuzzleState) :
    (L.foldl disconnectTriStep s).connected_edges = s.connected_edges :=
  foldl_preserve disconnectTriStep (fun st => st.connected_edges) (fun _ _ => rfl) L s

theorem disconnFold_cbv (L : List Nat) (s : PuzzleState) :
    (L.foldl disconnectTriStep s).connected_edges_by_vertex =
      s.connected_edges_by_vertex :=
  foldl_preserve disconnectTriStep (fun st => st.connected_edges_by_vertex)
    (fun _ _ => rfl) L s

theorem disconnFold_perm (L : List Nat) (s : PuzzleState) :
    (L.foldl disconnectTriStep s).permanent_edges = s.permanent_edges :=
  foldl_preserve disconnectTriStep (fun st => st.permanent_edges) (fun _ _ => rfl) L s

theorem disconnFold_pcv (L : List Nat) (s : PuzzleState) :
    (L.foldl disconnectTriStep s).permanent_edges_by_vertex =
      s.permanent_edges_by_vertex :=
  foldl_preserve disconnectTriStep (fun st => st.permanent_edges_by_vertex)
    (fun _ _ => rfl) L s

theorem disconnFold_pv (L : List Nat) (s : PuzzleState) :
    (L.foldl disconnectTriStep s).permanent_vertices = s.permanent_vertices :=
  foldl_preserve disconnectTriStep (fun st => st.permanent_vertices) (fun _ _ => rfl) L s

theorem connect_edge_eq {d : PuzzleData} {s : PuzzleState} {e : Edge}
    (hc : canon e ∉ s.connected_edges) :
    connect_edge d s e =
      (d.edge_to_triangles (canon e)).foldl (connectTriStep d) (connectRecord s e) := by
  by_cases he : d.edge_to_triangles (canon e) = [] <;>
    simp [connect_edge, PuzzleData.triangles_with_edge, hc, he, connectRecord]

theorem connect_edge_already {d : PuzzleData} {s : PuzzleState} {e : Edge}
    (hc : canon e ∈ s.connected_edges) : connect_edge d s e = s := by
  simp [connect_edge, hc]

theorem disconnect_edge_eq {d : PuzzleData} {s : PuzzleState} {e : Edge}
    (hc : canon e ∈ s.connected_edges) :
    disconnect_edge d s e =
      (d.edge_to_triangles (canon e)).foldl disconnectTriStep (disconnectRecord s e) := by
  by_cases he : d.edge_to_triangles (canon e) = [] <;>
    simp [disconnect_edge, PuzzleData.triangles_with_edge, hc, he, disconnectRecord]

theorem disconnect_edge_already {d : PuzzleData} {s : PuzzleState} {e : Edge}
    (hc : canon e ∉ s.connected_edges) : disconnect_edge d s e = s := by
  simp [disconnect_edge, hc]

theorem disconnect_edge_perm (d : PuzzleData) (s : PuzzleState) (e : Edge) :
    (disconnect_edge d s e).permanent_edges = s.permanent_edges := by
  by_cases hc : canon e ∈ s.connected_edges
  · rw [disconnect_edge_eq hc, disconnFold_perm]; rfl
  · rw [disconnect_edge_already hc]

theorem disconnect_edge_pcv (d : PuzzleData) (s : PuzzleState) (e : Edge) :
    (disconnect_edge d s e).permanent_edges_by_vertex = s.permanent_edges_by_vertex := by
  by_cases hc : canon e ∈ s.connected_edges
  · rw [disconnect_edge_eq hc, disconnFold_pcv]; rfl
  · rw [disconnect_edge_already hc]

theorem disconnect_edge_pv (d : PuzzleData) (s : PuzzleState) (e : Edge) :
    (disconnect_edge d s e).permanent_vertices = s.permanent_vertices := by
  by_cases hc : canon e ∈ s.connected_edges
  · rw [disconnect_edge_eq hc, disconnFold_pv]; rfl
  · rw [disconnect_edge_already hc]

/-! ## Evolution of the remaining counts through the triangle loops -/

theorem connFold_reqs (d : PuzzleData) (L : List Nat) :
    ∀ (s : PuzzleState), L.Nodup → (∀ t ∈ L, t < s.triangle_reqs.length) →
      ∀ u, (L.foldl (connectTriStep d) s).triangle_reqs.getD u 0 =
        if u ∈ L then s.triangle_reqs.getD u 0 - 1 else s.triangle_reqs.getD u 0 := by
  induction L with
  | nil => intro s _ _ u; simp
  | cons t L ih =>
    intro s hnd hlt u
    rcases List.nodup_cons.mp hnd with ⟨htL, hndL⟩
    rw [List.foldl_cons]
    have hlen : ∀ x ∈ L, x < (connectTriStep d s t).triangle_reqs.length := by
      intro x hx
      rw [connectTriStep_reqs, List.length_set]
      exact hlt x (List.mem_cons_of_mem _ hx)
    rw [ih _ hndL hlen u]
    by_cases hu : u ∈ L
    · have hut : u ≠ t := fun h => htL (h ▸ hu)
      rw [connectTriStep_reqs, getD_set_ne _ _ (Ne.symm hut)]
      simp [hu, hut]
    · by_cases hut : u = t
      · subst hut
        rw [connectTriStep_reqs, getD_set_self _ _ (hlt u (List.mem_cons_self _ _))]
        simp [hu]
      · rw [connectTriStep_reqs, getD_set_ne _ _ (Ne.symm hut)]
        simp [hu, hut]

theorem disconnFold_reqs (L : List Nat) :
    ∀ (s : PuzzleState), L.Nodup → (∀ t ∈ L, t < s.triangle_reqs.length) →
      ∀ u, (L.foldl disconnectTriStep s).triangle_reqs.getD u 0 =
        if u ∈ L then s.triangle_reqs.getD u 0 + 1 else s.triangle_reqs.getD u 0 := by
  induction L with
  | nil => intro s _ _ u; simp
  | cons t L ih =>
    intro s hnd hlt u
    rcases List.nodup_cons.mp hnd with ⟨htL, hndL⟩
    rw [List.foldl_cons]
    have hlen : ∀ x ∈ L, x < (disconnectTriStep s t).triangle_reqs.length := by
      intro x hx
      show x < (s.triangle_reqs.set t _).length
      rw [List.length_set]
      exact hlt x (List.mem_cons_of_mem _ hx)
    rw [ih _ hndL hlen u]
    by_cases hu : u ∈ L
    · have hut : u ≠ t := fun h => htL (h ▸ hu)
      show (if u ∈ L then (s.triangle_reqs.set t _).getD u 0 + 1
        else (s.triangle_reqs.set t _).getD u 0) = _
      rw [if_pos hu, getD_set_ne _ _ (Ne.symm hut)]
      simp [hu, hut]
    · by_cases hut : u = t
      · subst hut
        show (if u ∈ L then (s.triangle_reqs.set u _).getD u 0 + 1
          else (s.triangle_reqs.set u _).getD u 0) = _
        rw [if_neg hu, getD_set_self _ _ (hlt u (List.mem_cons_self _ _))]
        simp
      · show (if u ∈ L then (s.triangle_reqs.set t _).getD u 0 + 1
          else (s.triangle_reqs.set t _).getD u 0) = _
        rw [if_neg hu, getD_set_ne _ _ (Ne.symm hut)]
        simp [hu, hut]

/-! ## Counting connected edges of a triangle -/

theorem filter3_length (p : Edge → Bool) (x y z : Edge) :
    ([x, y, z].filter p).length =
      (if p x then 1 else 0) + (if p y then 1 else 0) + (if p z then 1 else 0) := by
  cases hx : p x <;> cases hy : p y <;> cases hz : p z <;>
    simp [List.filter_cons, hx, hy, hz]

theorem cnt_cons_3 {a b c : Edge} (hab : a ≠ b) (hac : a ≠ c) (hbc : b ≠ c)
    {ce : Edge} {S : List Edge} (hce : ce ∉ S) :
    ([a, b, c].filter (fun x => decide (x ∈ ce :: S))).length =
      ([a, b, c].filter (fun x => decide (x ∈ S))).length +
        (if ce ∈ [a, b, c] then 1 else 0) := by
  rw [filter3_length, filter3_length]
  have key : ∀ w : Edge, (if (decide (w ∈ ce :: S)) = true then 1 else 0) =
      (if (decide (w ∈ S)) = true then 1 else 0) + (if ce = w then 1 else 0) := by
    intro w
    by_cases hw : ce = w
    · subst hw
      simp [hce, List.mem_cons]
    · simp [List.mem_cons, hw, Ne.symm hw]
  have hsum : (if ce = a then 1 else 0) + (if ce = b then 1 else 0) +
      (if ce = c then 1 else 0) = (if ce ∈ [a, b, c] then 1 else 0) := by
    by_cases h1 : ce = a <;> by_cases h2 : ce = b <;> by_cases h3 : ce = c <;>
      simp_all [List.mem_cons]
  have ka := key a
  have kb := key b
  have kc := key c
  omega

theorem cnt_erase_3 {a b c : Edge} (hab : a ≠ b) (hac : a ≠ c) (hbc : b ≠ c)
    {ce : Edge} {S : List Edge} (hSnd : S.Nodup) :
    ([a, b, c].filter (fun x => decide (x ∈ S.erase ce))).length =
      ([a, b, c].filter (fun x => decide (x ∈ S))).length -
        (if ce ∈ [a, b, c] ∧ ce ∈ S then 1 else 0) := by
  rw [filter3_length, filter3_length]
  have key : ∀ w : Edge, (if (decide (w ∈ S.erase ce)) = true then 1 else 0) +
      (if ce = w ∧ ce ∈ S then 1 else 0) = (if (decide (w ∈ S)) = true then 1 else 0) := by
    intro w
    by_cases hw : ce = w
    · subst hw
      have hne2 : ce ∉ S.erase ce := nodup_not_mem_erase hSnd ce
      by_cases hcs : ce ∈ S <;> simp [hne2, hcs]
    · have hiff : w ∈ S.erase ce ↔ w ∈ S := by
        rw [nodup_mem_erase hSnd]
        simp [Ne.symm hw]
      by_cases hws : w ∈ S <;> simp [hw, hiff, hws]
  have hsum : (if ce = a ∧ ce ∈ S then 1 else 0) + (if ce = b ∧ ce ∈ S then 1 else 0) +
      (if ce = c ∧ ce ∈ S then 1 else 0) = (if ce ∈ [a, b, c] ∧ ce ∈ S then 1 else 0) := by
    by_cases h1 : ce = a <;> by_cases h2 : ce = b <;> by_cases h3 : ce = c <;>
      by_cases h4 : ce ∈ S <;> simp_all [List.mem_cons]
  have ka := key a
  have kb := key b
  have kc := key c
  omega

theorem cnt_le_3 (p : Edge → Bool) (x y z : Edge) : ([x, y, z].filter p).length ≤ 3 := by
  rw [filter3_length]
  split_ifs <;> omega

theorem filter_hsInsert_length (l : List Edge) (a : Edge) (p : Edge → Bool) :
    ((hsInsert l a).filter p).length ≤ (l.filter p).length + (if p a then 1 else 0) := by
  unfold hsInsert
  by_cases h : a ∈ l
  · rw [if_pos h]
    split_ifs <;> omega
  · rw [if_neg h, List.filter_cons]
    split_ifs <;> simp <;> omega

/-! ## The by-vertex index under the record updates -/

theorem connAt_connectRecord (s : PuzzleState) (e : Edge) (v : Nat) :
    connAt (connectRecord s e) v =
      if v = e.2 then
        hsInsert (if v = e.1 then hsInsert (connAt s v) (canon e) else connAt s v) (canon e)
      else if v = e.1 then hsInsert (connAt s v) (canon e) else connAt s v := by
  show ((entryInsert (entryInsert s.connected_edges_by_vertex e.1 (canon e)) e.2
    (canon e)) v).getD [] = _
  simp only [entryInsert_getD]
  rfl

theorem mem_connAt_connectRecord (s : PuzzleState) (e : Edge) (v : Nat) (x : Edge) :
    x ∈ connAt (connectRecord s e) v ↔
      (x = canon e ∧ (v = e.1 ∨ v = e.2)) ∨ x ∈ connAt s v := by
  rw [connAt_connectRecord]
  split_ifs with h1 h2 h2 <;> simp [mem_hsInsert, h1, h2] <;> tauto

theorem nodup_connAt_connectRecord (s : PuzzleState) (e : Edge) (v : Nat)
    (h : (connAt s v).Nodup) : (connAt (connectRecord s e) v).Nodup := by
  rw [connAt_connectRecord]
  split_ifs <;>
    first
      | exact nodup_hsInsert _ (nodup_hsInsert _ h)
      | exact nodup_hsInsert _ h
      | exact h

theorem connAt_disconnectRecord (s : PuzzleState) (e : Edge) (v : Nat) :
    connAt (disconnectRecord s e) v =
      if v = e.2 then
        (if v = e.1 then (connAt s v).erase (canon e) else connAt s v).erase (canon e)
      else if v = e.1 then (connAt s v).erase (canon e) else connAt s v := by
  show ((entryRemove (entryRemove s.connected_edges_by_vertex e.1 (canon e)) e.2
    (canon e)) v).getD [] = _
  simp only [entryRemove_getD]
  rfl

theorem mem_connAt_disconnectRecord (s : PuzzleState) (e : Edge) (v : Nat) (x : Edge)
    (h : (connAt s v).Nodup) :
    x ∈ connAt (disconnectRecord s e) v ↔
      (x ∈ connAt s v ∧ ((v = e.1 ∨ v = e.2) → x ≠ canon e)) := by
  rw [connAt_disconnectRecord]
  split_ifs with h1 h2 h2 <;>
    first
      | (rw [nodup_mem_erase (nodup_erase h _), nodup_mem_erase h]; tauto)
      | (rw [nodup_mem_erase h]; tauto)
      | tauto

theorem nodup_connAt_disconnectRecord (s : PuzzleState) (e : Edge) (v : Nat)
    (h : (connAt s v).Nodup) : (connAt (disconnectRecord s e) v).Nodup := by
  rw [connAt_disconnectRecord]
  split_ifs <;>
    first
      | exact nodup_erase (nodup_erase h _) _
      | exact nodup_erase h _
      | exact h

/-! ## The reachability invariant -/

theorem Inv_from_data (d : PuzzleData) : Inv d (PuzzleState.from_data d) := by
  refine ⟨⟨?_, ?_, ?_⟩, ⟨?_, ?_, ?_, ?_⟩, ⟨?_, ?_, ?_⟩, ?_⟩
  · simp [PuzzleState.from_data]
  · intro u
    simp only [PuzzleState.from_data, List.not_mem_nil, false_iff, not_and]
    intro hu
    rw [List.getD_eq_getElem?_getD, List.getElem?_replicate]
    simp [hu]
  · simp [PuzzleState.from_data]
  · simp [PuzzleState.from_data]
  · simp [PuzzleState.from_data]
  · intro v x
    simp [PuzzleState.from_data, connAt]
  · intro v
    simp [PuzzleState.from_data, connAt]
  · intro v
    simp [PuzzleState.from_data, pcvD]
  · intro v
    simp only [PuzzleState.from_data, List.not_mem_nil, false_iff, not_and, pcvD]
    intro h1
    simp
    omega
  · simp [PuzzleState.from_data]
  · intro t ht
    have h1 : (PuzzleState.from_data d).triangle_reqs.getD t 0 = 3 := by
      simp only [PuzzleState.from_data]
      rw [List.getD_eq_getElem?_getD, List.getElem?_replicate]
      simp [ht]
    have h2 : connCount d (PuzzleState.from_data d) t = 0 := by
      unfold connCount
      simp [PuzzleState.from_data]
    rw [h1, h2]

/-! ### Preservation by the connect loop -/

theorem connectTriStep_UInv {d : PuzzleData} {s : PuzzleState} {t : Nat}
    (ht : t < d.tris.length) (h : UInv d s) : UInv d (connectTriStep d s t) := by
  obtain ⟨hlen, hmem, hnd⟩ := h
  have hts : t < s.triangle_reqs.length := by omega
  refine ⟨?_, ?_, ?_⟩
  · rw [connectTriStep_reqs, List.length_set, hlen]
  · intro u
    rw [connectTriStep_unlocked, connectTriStep_reqs]
    by_cases hut : u = t
    · subst hut
      rw [getD_set_self _ _ hts]
      split_ifs with hfire
      · rw [List.getD_eq_getElem?_getD] at hfire
        simp [mem_hsInsert, ht, hfire]
      · refine iff_of_false (fun hin => hfire ?_) (fun hin => hfire hin.2)
        have := (hmem u).mp hin
        omega
    · rw [getD_set_ne _ _ (Ne.symm hut)]
      split_ifs with hfire
      · simp only [mem_hsInsert]
        rw [hmem u]
        constructor
        · rintro (rfl | hu)
          · exact absurd rfl hut
          · exact hu
        · exact fun hu => Or.inr hu
      · exact hmem u
  · rw [connectTriStep_unlocked]
    split_ifs with hfire
    · exact nodup_hsInsert _ hnd
    · exact hnd

theorem disconnectTriStep_UInv {d : PuzzleData} {s : PuzzleState} {t : Nat}
    (ht : t < d.tris.length) (h : UInv d s) : UInv d (disconnectTriStep s t) := by
  obtain ⟨hlen, hmem, hnd⟩ := h
  have hts : t < s.triangle_reqs.length := by omega
  refine ⟨?_, ?_, ?_⟩
  · show (s.triangle_reqs.set t _).length = _
    rw [List.length_set, hlen]
  · intro u
    show u ∈ (if s.triangle_reqs.getD t 0 = 0 then s.unlocked_triangles.erase t
      else s.unlocked_triangles) ↔
      u < d.tris.length ∧ (s.triangle_reqs.set t (s.triangle_reqs.getD t 0 + 1)).getD u 0 = 0
    by_cases hut : u = t
    · subst hut
      rw [getD_set_self _ _ hts]
      refine iff_of_false ?_ (by omega)
      split_ifs with hz
      · exact nodup_not_mem_erase hnd u
      · intro hin
        exact hz ((hmem u).mp hin).2
    · rw [getD_set_ne _ _ (Ne.symm hut)]
      split_ifs with hz
      · rw [nodup_mem_erase hnd]
        rw [hmem u]
        tauto
      · exact hmem u
  · show (if s.triangle_reqs.getD t 0 = 0 then s.unlocked_triangles.erase t
      else s.unlocked_triangles).Nodup
    split_ifs with hz
    · exact nodup_erase hnd t
    · exact hnd

theorem unlockEdgeStep_PInv {d : PuzzleData} {s : PuzzleState} {ep : Edge}
    (hne : ep.1 ≠ ep.2) (h : PInv d s) : PInv d (unlockEdgeStep d s ep) := by
  obtain ⟨hle, hpv, hnd⟩ := h
  have hpcv : ∀ v, pcvD (unlockEdgeStep d s ep) v =
      pcvD s v + (if v = ep.1 then 1 else 0) + (if v = ep.2 then 1 else 0) := by
    intro v
    show ((bump (bump s.permanent_edges_by_vertex ep.1) ep.2) v).getD 0 = _
    simp only [bump_getD, pcvD]
    split_ifs <;> omega
  have hperm : (unlockEdgeStep d s ep).permanent_edges = hsInsert s.permanent_edges ep :=
    rfl
  have hfire1 : ((bump (bump s.permanent_edges_by_vertex ep.1) ep.2) ep.1).getD 0 =
      pcvD s ep.1 + 1 := by
    simp only [bump_getD, pcvD]
    split_ifs with h1 h2 <;> first | omega | (exact absurd h1 hne)
  have hfire2 : ((bump (bump s.permanent_edges_by_vertex ep.1) ep.2) ep.2).getD 0 =
      pcvD s ep.2 + 1 := by
    simp only [bump_getD, pcvD]
    split_ifs with h1 h2 <;> first | omega | (exact absurd h1.symm hne) |
      (exact absurd h2.symm hne)
  refine ⟨?_, ?_, ?_⟩
  · intro v
    rw [hperm, hpcv v]
    refine le_trans (filter_hsInsert_length _ _ _) ?_
    have h1 := hle v
    have h2 : (if (decide (ep.1 = v ∨ ep.2 = v)) = true then 1 else 0) ≤
        (if v = ep.1 then 1 else 0) + (if v = ep.2 then 1 else 0) := by
      split_ifs with ha hb hc <;> simp_all <;> omega
    omega
  · intro v
    have hmem : v ∈ (unlockEdgeStep d s ep).permanent_vertices ↔
        (v ∈ s.permanent_vertices ∨
          (pcvD s ep.1 + 1 = d.num_edges_from_vertex ep.1 ∧ v = ep.1) ∨
          (pcvD s ep.2 + 1 = d.num_edges_from_vertex ep.2 ∧ v = ep.2)) := by
      show v ∈ (if _ then hsInsert (if _ then hsInsert s.permanent_vertices ep.1
        else s.permanent_vertices) ep.2 else (if _ then hsInsert s.permanent_vertices ep.1
        else s.permanent_vertices)) ↔ _
      rw [hfire1, hfire2]
      split_ifs with h1 h2 h2 <;> simp [mem_hsInsert, h1, h2] <;> tauto
    rw [hmem, hpv v, hpcv v]
    by_cases hv1 : v = ep.1
    · subst hv1
      rw [if_pos rfl, if_neg hne]
      constructor
      · rintro (⟨h1, h2⟩ | ⟨h1, -⟩ | ⟨-, h2⟩)
        · exact ⟨h1, by omega⟩
        · exact ⟨by omega, by omega⟩
        · exact absurd h2 hne
      · rintro ⟨h1, h2⟩
        by_cases hcase : d.num_edges_from_vertex ep.1 ≤ pcvD s ep.1
        · exact Or.inl ⟨h1, hcase⟩
        · exact Or.inr (Or.inl ⟨by omega, rfl⟩)
    · by_cases hv2 : v = ep.2
      · subst hv2
        rw [if_neg hv1, if_pos rfl]
        constructor
        · rintro (⟨h1, h2⟩ | ⟨-, hv⟩ | ⟨h1, -⟩)
          · exact ⟨h1, by omega⟩
          · exact absurd hv hv1
          · exact ⟨by omega, by omega⟩
        · rintro ⟨h1, h2⟩
          by_cases hcase : d.num_edges_from_vertex ep.2 ≤ pcvD s ep.2
          · exact Or.inl ⟨h1, hcase⟩
          · exact Or.inr (Or.inr ⟨by omega, rfl⟩)
      · rw [if_neg hv1, if_neg hv2]
        constructor
        · rintro (⟨h1, h2⟩ | ⟨-, hv⟩ | ⟨-, hv⟩)
          · exact ⟨h1, by omega⟩
          · exact absurd hv hv1
          · exact absurd hv hv2
        · rintro ⟨h1, h2⟩
          exact Or.inl ⟨h1, by omega⟩
  · rw [hperm]
    exact nodup_hsInsert _ hnd

theorem connectTriStep_PInv {d : PuzzleData} {s : PuzzleState} {t : Nat}
    (hw : WF d) (ht : t < d.tris.length) (h : PInv d s) :
    PInv d (connectTriStep d s t) := by
  unfold connectTriStep
  dsimp only
  split_ifs with hfire
  · refine foldl_inv (PInv d) ?_ _ ?_
    · intro s' ep hep hs'
      have hwt := WFTri_getD hw ht
      refine unlockEdgeStep_PInv ?_ hs'
      have := edgesOfTri_fst_lt hwt.2.2.2.1 hwt.2.2.2.2.1 hwt.2.2.2.2.2 ep hep
      omega
    · exact h
  · exact h

/-! ### Preservation by the full operations -/

theorem Inv_connect {d : PuzzleData} {s : PuzzleState} (hw : WF d) (h : Inv d s)
    (e : Edge) : Inv d (connect_edge d s e) := by
  obtain ⟨hU, hC, hP, hR⟩ := h
  by_cases hc : canon e ∈ s.connected_edges
  · rw [connect_edge_already hc]
    exact ⟨hU, hC, hP, hR⟩
  rw [connect_edge_eq hc]
  have hLlt : ∀ t ∈ d.edge_to_triangles (canon e), t < d.tris.length :=
    fun t ht => (mem_edge_to_triangles.mp ht).1
  have hLnd : (d.edge_to_triangles (canon e)).Nodup := nodup_edge_to_triangles hw _
  have hC1 : CInv (connectRecord s e) := by
    obtain ⟨hnd, hcanon, hmem, hvnd⟩ := hC
    refine ⟨?_, ?_, ?_, ?_⟩
    · show (canon e :: s.connected_edges).Nodup
      simp [hc, hnd]
    · intro x hx
      rcases List.mem_cons.mp hx with rfl | hx
      · exact canon_canon e
      · exact hcanon x hx
    · intro v x
      rw [mem_connAt_connectRecord, hmem v x]
      show _ ↔ x ∈ canon e :: s.connected_edges ∧ _
      rw [List.mem_cons]
      have hci := canon_incident e v
      constructor
      · rintro (⟨rfl, hv⟩ | ⟨hxc, hvx⟩)
        · refine ⟨Or.inl rfl, ?_⟩
          rcases hv with rfl | rfl
          · exact hci.mpr (Or.inl rfl)
          · exact hci.mpr (Or.inr rfl)
        · exact ⟨Or.inr hxc, hvx⟩
      · rintro ⟨rfl | hxc, hvx⟩
        · refine Or.inl ⟨rfl, ?_⟩
          rcases hci.mp hvx with h1 | h1
          · exact Or.inl h1.symm
          · exact Or.inr h1.symm
        · exact Or.inr ⟨hxc, hvx⟩
    · intro v
      exact nodup_connAt_connectRecord s e v (hvnd v)
  have hCfin : CInv ((d.edge_to_triangles (canon e)).foldl (connectTriStep d)
      (connectRecord s e)) := by
    obtain ⟨h1, h2, h3, h4⟩ := hC1
    refine ⟨?_, ?_, ?_, ?_⟩
    · rw [connFold_conn]; exact h1
    · rw [connFold_conn]; exact h2
    · intro v x
      unfold connAt
      rw [connFold_cbv, connFold_conn]
      exact h3 v x
    · intro v
      unfold connAt
      rw [connFold_cbv]
      exact h4 v
  have hU1 : UInv d (connectRecord s e) := hU
  have hUfin := foldl_inv (UInv d)
    (fun s' t htL hs' => connectTriStep_UInv (hLlt t htL) hs') (connectRecord s e) hU1
  have hP1 : PInv d (connectRecord s e) := hP
  have hPfin := foldl_inv (PInv d)
    (fun s' t htL hs' => connectTriStep_PInv hw (hLlt t htL) hs') (connectRecord s e) hP1
  refine ⟨hUfin, hCfin, hPfin, ?_⟩
  intro t ht
  have hlen1 : (connectRecord s e).triangle_reqs.length = d.tris.length := hU.1
  have hreq := connFold_reqs d (d.edge_to_triangles (canon e)) (connectRecord s e) hLnd
    (fun x hx => by have := hLlt x hx; omega) t
  rw [hreq]
  have hcnt : connCount d ((d.edge_to_triangles (canon e)).foldl (connectTriStep d)
      (connectRecord s e)) t = connCount d (connectRecord s e) t := by
    unfold connCount
    rw [connFold_conn]
  rw [hcnt]
  obtain ⟨A, B, C, hE⟩ : ∃ A B C, d.get_edges_for_triangle t = [A, B, C] := ⟨_, _, _, rfl⟩
  have hwt := WFTri_getD hw ht
  have hEnd : (d.get_edges_for_triangle t).Nodup :=
    edgesOfTri_nodup hwt.2.2.2.1 hwt.2.2.2.2.1 hwt.2.2.2.2.2
  rw [hE] at hEnd
  simp only [List.nodup_cons, List.mem_cons, List.not_mem_nil, or_false, not_or,
    List.nodup_nil, and_true, not_false_eq_true] at hEnd
  obtain ⟨⟨hAB, hAC⟩, hBC⟩ := hEnd
  have hcnt2 : connCount d (connectRecord s e) t =
      connCount d s t + (if canon e ∈ d.get_edges_for_triangle t then 1 else 0) := by
    unfold connCount
    rw [hE]
    show ([A, B, C].filter (fun x => decide (x ∈ canon e :: s.connected_edges))).length = _
    rw [cnt_cons_3 hAB hAC hBC hc]
  have hmemL : t ∈ d.edge_to_triangles (canon e) ↔
      canon e ∈ d.get_edges_for_triangle t := by
    rw [mem_edge_to_triangles]
    exact ⟨fun hh => hh.2, fun hh => ⟨ht, hh⟩⟩
  have hs1reqs : (connectRecord s e).triangle_reqs = s.triangle_reqs := rfl
  by_cases htL : t ∈ d.edge_to_triangles (canon e)
  · rw [if_pos htL, hcnt2, if_pos (hmemL.mp htL), hs1reqs, hR t ht]
    omega
  · rw [if_neg htL, hcnt2, if_neg (fun hcE => htL (hmemL.mpr hcE)), hs1reqs, hR t ht]
    omega

theorem Inv_disconnect {d : PuzzleData} {s : PuzzleState} (hw : WF d) (h : Inv d s)
    (e : Edge) : Inv d (disconnect_edge d s e) := by
  obtain ⟨hU, hC, hP, hR⟩ := h
  by_cases hc : canon e ∈ s.connected_edges
  case neg =>
    rw [disconnect_edge_already hc]
    exact ⟨hU, hC, hP, hR⟩
  rw [disconnect_edge_eq hc]
  have hLlt : ∀ t ∈ d.edge_to_triangles (canon e), t < d.tris.length :=
    fun t ht => (mem_edge_to_triangles.mp ht).1
  have hLnd : (d.edge_to_triangles (canon e)).Nodup := nodup_edge_to_triangles hw _
  obtain ⟨hnd, hcanon, hmem, hvnd⟩ := hC
  have hC1 : CInv (disconnectRecord s e) := by
    refine ⟨?_, ?_, ?_, ?_⟩
    · show (s.connected_edges.erase (canon e)).Nodup
      exact nodup_erase hnd _
    · intro x hx
      exact hcanon x (List.erase_subset _ _ hx)
    · intro v x
      rw [mem_connAt_disconnectRecord s e v x (hvnd v), hmem v x]
      show _ ↔ x ∈ s.connected_edges.erase (canon e) ∧ _
      rw [nodup_mem_erase hnd]
      have hci := canon_incident e v
      constructor
      · rintro ⟨⟨hxconn, hinc⟩, himp⟩
        refine ⟨⟨?_, hxconn⟩, hinc⟩
        intro hxc
        subst hxc
        refine himp ?_ rfl
        rcases hci.mp hinc with h1 | h1
        · exact Or.inl h1.symm
        · exact Or.inr h1.symm
      · rintro ⟨⟨hxc, hxconn⟩, hinc⟩
        exact ⟨⟨hxconn, hinc⟩, fun _ => hxc⟩
    · intro v
      exact nodup_connAt_disconnectRecord s e v (hvnd v)
  have hCfin : CInv ((d.edge_to_triangles (canon e)).foldl disconnectTriStep
      (disconnectRecord s e)) := by
    obtain ⟨h1, h2, h3, h4⟩ := hC1
    refine ⟨?_, ?_, ?_, ?_⟩
    · rw [disconnFold_conn]; exact h1
    · rw [disconnFold_conn]; exact h2
    · intro v x
      unfold connAt
      rw [disconnFold_cbv, disconnFold_conn]
      exact h3 v x
    · intro v
      unfold connAt
      rw [disconnFold_cbv]
      exact h4 v
  have hU1 : UInv d (disconnectRecord s e) := hU
  have hUfin := foldl_inv (UInv d)
    (fun s' t htL hs' => disconnectTriStep_UInv (hLlt t htL) hs') (disconnectRecord s e) hU1
  have hPfin : PInv d ((d.edge_to_triangles (canon e)).foldl disconnectTriStep
      (disconnectRecord s e)) := by
    unfold PInv pcvD
    rw [disconnFold_perm, disconnFold_pcv, disconnFold_pv]
    exact hP
  refine ⟨hUfin, hCfin, hPfin, ?_⟩
  intro t ht
  have hlen1 : (disconnectRecord s e).triangle_reqs.length = d.tris.length := hU.1
  have hreq := disconnFold_reqs (d.edge_to_triangles (canon e)) (disconnectRecord s e)
    hLnd (fun x hx => by have := hLlt x hx; omega) t
  rw [hreq]
  have hcnt : connCount d ((d.edge_to_triangles (canon e)).foldl disconnectTriStep
      (disconnectRecord s e)) t = connCount d (disconnectRecord s e) t := by
    unfold connCount
    rw [disconnFold_conn]
  rw [hcnt]
  obtain ⟨A, B, C, hE⟩ : ∃ A B C, d.get_edges_for_triangle t = [A, B, C] := ⟨_, _, _, rfl⟩
  have hwt := WFTri_getD hw ht
  have hEnd : (d.get_edges_for_triangle t).Nodup :=
    edgesOfTri_nodup hwt.2.2.2.1 hwt.2.2.2.2.1 hwt.2.2.2.2.2
  rw [hE] at hEnd
  simp only [List.nodup_cons, List.mem_cons, List.not_mem_nil, or_false, not_or,
    List.nodup_nil, and_true, not_false_eq_true] at hEnd
  obtain ⟨⟨hAB, hAC⟩, hBC⟩ := hEnd
  have hcnt2 : connCount d (disconnectRecord s e) t =
      connCount d s t -
        (if canon e ∈ d.get_edges_for_triangle t ∧ canon e ∈ s.connected_edges then 1
          else 0) := by
    unfold connCount
    rw [hE]
    show ([A, B, C].filter
      (fun x => decide (x ∈ s.connected_edges.erase (canon e)))).length = _
    rw [cnt_erase_3 hAB hAC hBC hnd]
  have hmemL : t ∈ d.edge_to_triangles (canon e) ↔
      canon e ∈ d.get_edges_for_triangle t := by
    rw [mem_edge_to_triangles]
    exact ⟨fun hh => hh.2, fun hh => ⟨ht, hh⟩⟩
  have hs1reqs : (disconnectRecord s e).triangle_reqs = s.triangle_reqs := rfl
  have hcnt3 : connCount d s t ≤ 3 := by
    unfold connCount
    rw [hE]
    exact cnt_le_3 _ _ _ _
  by_cases htL : t ∈ d.edge_to_triangles (canon e)
  · have hcE : canon e ∈ d.get_edges_for_triangle t := hmemL.mp htL
    have hcnt1 : 1 ≤ connCount d s t := by
      unfold connCount
      refine List.length_pos.mpr ?_
      intro hemp
      have : canon e ∈ (d.get_edges_for_triangle t).filter
          (fun x => decide (x ∈ s.connected_edges)) :=
        List.mem_filter.mpr ⟨hcE, by simp [hc]⟩
      rw [hemp] at this
      exact List.not_mem_nil _ this
    rw [if_pos htL, hcnt2, if_pos ⟨hcE, hc⟩, hs1reqs, hR t ht]
    omega
  · rw [if_neg htL, hcnt2, if_neg (fun hcE => htL (hmemL.mpr hcE.1)), hs1reqs, hR t ht]
    omega

theorem dfv_eq {d : PuzzleData} {s : PuzzleState} {v : Nat} {ce : List Edge} {pc : Nat}
    (hcbv : s.connected_edges_by_vertex v = some ce)
    (hpcv : s.permanent_edges_by_vertex v = some pc) :
    disconnect_from_vertex d s v =
      if v ∈ s.permanent_vertices ∧ ce.length = pc then some s
      else some (ce.foldl (fun s e =>
        if e ∈ s.permanent_edges then s else disconnect_edge d s e) s) := by
  unfold disconnect_from_vertex
  rw [hcbv, hpcv]

theorem dfv_none_cbv {d : PuzzleData} {s : PuzzleState} {v : Nat}
    (hcbv : s.connected_edges_by_vertex v = none) :
    disconnect_from_vertex d s v = none := by
  unfold disconnect_from_vertex
  rw [hcbv]

theorem dfv_none_pcv {d : PuzzleData} {s : PuzzleState} {v : Nat}
    (hpcv : s.permanent_edges_by_vertex v = none) :
    disconnect_from_vertex d s v = none := by
  unfold disconnect_from_vertex
  rw [hpcv]
  cases s.connected_edges_by_vertex v <;> rfl

theorem Inv_dfv {d : PuzzleData} {s s' : PuzzleState} {v : Nat} (hw : WF d)
    (h : Inv d s) (hsome : disconnect_from_vertex d s v = some s') : Inv d s' := by
  cases hcbv : s.connected_edges_by_vertex v with
  | none =>
    rw [dfv_none_cbv hcbv] at hsome
    cases hsome
  | some ce =>
    cases hpcv : s.permanent_edges_by_vertex v with
    | none =>
      rw [dfv_none_pcv hpcv] at hsome
      cases hsome
    | some pc =>
      rw [dfv_eq hcbv hpcv] at hsome
      split_ifs at hsome with hguard
      · injection hsome with heq
        exact heq ▸ h
      · injection hsome with heq
        refine heq ▸ foldl_inv (Inv d) ?_ s h
        intro s'' e he hInv
        split_ifs with hpe
        · exact hInv
        · exact Inv_disconnect hw hInv e

theorem Reachable_Inv {d : PuzzleData} {s : PuzzleState} (hw : WF d)
    (h : Reachable d s) : Inv d s := by
  induction h with
  | init => exact Inv_from_data d
  | connect hr hv ih => exact Inv_connect hw ih _
  | disconnect hr hv ih => exact Inv_disconnect hw ih _
  | fromVertex hr hv hsome ih => exact Inv_dfv hw ih hsome

/-! ## Reachability of the concrete runs -/

theorem reach_sA1 : Reachable dataA sA1 :=
  Reachable.connect Reachable.init (by decide)

theorem reach_sA3 : Reachable dataA sA3 :=
  Reachable.connect (Reachable.connect reach_sA1 (by decide)) (by decide)

theorem reach_sB0 : Reachable dataB sB0 := Reachable.init

theorem reach_sB3 : Reachable dataB sB3 :=
  Reachable.connect (Reachable.connect (Reachable.connect Reachable.init (by decide))
    (by decide)) (by decide)

theorem reach_sB5 : Reachable dataB sB5 :=
  Reachable.disconnect (Reachable.connect reach_sB3 (by decide)) (by decide)

theorem reach_sE5 : Reachable dataE sE5 :=
  Reachable.connect (Reachable.connect (Reachable.connect (Reachable.connect
    (Reachable.connect Reachable.init (by decide)) (by decide)) (by decide))
    (by decide)) (by decide)

/-! ## The claims -/

/-- C1: for every triangle `t` of the mesh, in every state reachable from the
fresh `PuzzleState` by `connect_edge`/`disconnect_edge` (and
`disconnect_from_vertex`) calls on valid inputs, the remaining count
`triangle_reqs[t]` equals `3` minus the number of canonical edges of `t`
currently in `connected_edges`. -/
theorem C1_triangle_reqs_invariant {d : PuzzleData} {s : PuzzleState} (hw : WF d)
    (hr : Reachable d s) {t : Nat} (ht : t < d.tris.length) :
    s.triangle_reqs.getD t 0 =
      3 - ((d.get_edges_for_triangle t).filter
        (fun e => decide (e ∈ s.connected_edges))).length :=
  (Reachable_Inv hw hr).2.2.2 t ht

/-- Witness for C1 at a concrete input: the one-triangle mesh after
connecting edge (0,1) has remaining count 2 = 3 - 1 for its triangle. -/
theorem C1_witness :
    WF dataA ∧ 0 < dataA.tris.length ∧
      sA1.triangle_reqs.getD 0 0 =
        3 - ((dataA.get_edges_for_triangle 0).filter
          (fun e => decide (e ∈ sA1.connected_edges))).length :=
  ⟨by decide, by decide,
    C1_triangle_reqs_invariant (by decide) reach_sA1 (by decide)⟩

/-- C2: in every reachable state, `is_finished()` is true iff every triangle
of the mesh has all 3 of its canonical edges in `connected_edges`. -/
theorem C2_is_finished_iff {d : PuzzleData} {s : PuzzleState} (hw : WF d)
    (hr : Reachable d s) :
    is_finished s = true ↔
      (∀ t, t < d.tris.length → ∀ e ∈ d.get_edges_for_triangle t,
        e ∈ s.connected_edges) := by
  obtain ⟨⟨hlen, hmem, hnd⟩, hC, hP, hR⟩ := Reachable_Inv hw hr
  have hfin : is_finished s = true ↔
      s.unlocked_triangles.length = s.triangle_reqs.length := by
    simp [is_finished]
  rw [hfin, hlen]
  constructor
  · intro hlen2
    have hsubF : s.unlocked_triangles.toFinset ⊆ Finset.range d.tris.length := by
      intro u hu
      rw [List.mem_toFinset] at hu
      exact Finset.mem_range.mpr ((hmem u).mp hu).1
    have hcards : s.unlocked_triangles.toFinset = Finset.range d.tris.length := by
      refine Finset.eq_of_subset_of_card_le hsubF ?_
      rw [List.toFinset_card_of_nodup hnd, Finset.card_range, hlen2]
    have hall0 : ∀ t, t < d.tris.length → s.triangle_reqs.getD t 0 = 0 := by
      intro t ht
      have : t ∈ s.unlocked_triangles := by
        rw [← List.mem_toFinset, hcards]
        exact Finset.mem_range.mpr ht
      exact ((hmem t).mp this).2
    intro t ht e he
    have hReq := hR t ht
    have h0 := hall0 t ht
    obtain ⟨A, B, C, hE⟩ : ∃ A B C, d.get_edges_for_triangle t = [A, B, C] :=
      ⟨_, _, _, rfl⟩
    have hcle : connCount d s t ≤ 3 := by
      unfold connCount
      rw [hE]
      exact cnt_le_3 _ _ _ _
    have hcnt : connCount d s t = 3 := by omega
    unfold connCount at hcnt
    rw [hE] at hcnt he
    rw [filter3_length] at hcnt
    split_ifs at hcnt with h1 h2 h3 <;> try omega
    simp only [List.mem_cons, List.not_mem_nil, or_false] at he
    rcases he with rfl | rfl | rfl
    · exact of_decide_eq_true h1
    · exact of_decide_eq_true h2
    · exact of_decide_eq_true h3
  · intro hall
    have hreq0 : ∀ t, t < d.tris.length → s.triangle_reqs.getD t 0 = 0 := by
      intro t ht
      rw [hR t ht]
      obtain ⟨A, B, C, hE⟩ : ∃ A B C, d.get_edges_for_triangle t = [A, B, C] :=
        ⟨_, _, _, rfl⟩
      have hA := hall t ht A (by rw [hE]; simp)
      have hB := hall t ht B (by rw [hE]; simp)
      have hC2 := hall t ht C (by rw [hE]; simp)
      unfold connCount
      rw [hE, filter3_length]
      simp [hA, hB, hC2]
    have hext : s.unlocked_triangles.toFinset = Finset.range d.tris.length := by
      ext u
      rw [List.mem_toFinset, hmem u, Finset.mem_range]
      exact ⟨fun h => h.1, fun h => ⟨h, hreq0 u h⟩⟩
    calc s.unlocked_triangles.length = s.unlocked_triangles.toFinset.card :=
          (List.toFinset_card_of_nodup hnd).symm
      _ = (Finset.range d.tris.length).card := by rw [hext]
      _ = d.tris.length := Finset.card_range _

/-- Witness for C2: after connecting all three edges of the single triangle,
`is_finished` is true, and indeed every triangle edge is connected. -/
theorem C2_witness :
    WF dataA ∧
      (is_finished sA3 = true ↔
        (∀ t, t < dataA.tris.length → ∀ e ∈ dataA.get_edges_for_triangle t,
          e ∈ sA3.connected_edges)) ∧
      is_finished sA3 = true :=
  ⟨by decide, C2_is_finished_iff (by decide) reach_sA3, by decide⟩

/-- C10: a mesh with zero triangles yields a fresh `PuzzleState` that is
already finished before any `connect_edge` call. -/
theorem C10_empty_mesh_finished {d : PuzzleData} (h : d.tris = []) :
    is_finished (PuzzleState.from_data d) = true := by
  simp [is_finished, PuzzleState.from_data, h]

/-- Witness for C10: the 5-vertex, zero-triangle mesh starts finished. -/
theorem C10_witness : dataN.tris = [] ∧ is_finished (PuzzleState.from_data dataN) = true :=
  ⟨rfl, C10_empty_mesh_finished rfl⟩

/-! ## Monotonicity of permanence -/

theorem unlockEdgeStep_perm_mono (d : PuzzleData) (s : PuzzleState) (ep : Edge) :
    ∀ x ∈ s.permanent_edges, x ∈ (unlockEdgeStep d s ep).permanent_edges :=
  fun _ hx => subset_hsInsert _ _ hx

theorem unlockEdgeStep_pv_mono (d : PuzzleData) (s : PuzzleState) (ep : Edge) :
    ∀ x ∈ s.permanent_vertices, x ∈ (unlockEdgeStep d s ep).permanent_vertices := by
  intro x hx
  show x ∈ (if _ then hsInsert (if _ then hsInsert s.permanent_vertices ep.1
    else s.permanent_vertices) ep.2 else (if _ then hsInsert s.permanent_vertices ep.1
    else s.permanent_vertices))
  split_ifs <;>
    first
      | exact subset_hsInsert _ _ (subset_hsInsert _ _ hx)
      | exact subset_hsInsert _ _ hx
      | exact hx

theorem connectTriStep_perm_mono (d : PuzzleData) (s : PuzzleState) (t : Nat) :
    ∀ x ∈ s.permanent_edges, x ∈ (connectTriStep d s t).permanent_edges := by
  unfold connectTriStep
  dsimp only
  split_ifs
  · exact fun x hx => foldl_inv (fun st => x ∈ st.permanent_edges)
      (fun s' ep _ hmem => unlockEdgeStep_perm_mono d s' ep x hmem) _ hx
  · exact fun x hx => hx

theorem connectTriStep_pv_mono (d : PuzzleData) (s : PuzzleState) (t : Nat) :
    ∀ x ∈ s.permanent_vertices, x ∈ (connectTriStep d s t).permanent_vertices := by
  unfold connectTriStep
  dsimp only
  split_ifs
  · exact fun x hx => foldl_inv (fun st => x ∈ st.permanent_vertices)
      (fun s' ep _ hmem => unlockEdgeStep_pv_mono d s' ep x hmem) _ hx
  · exact fun x hx => hx

theorem connect_edge_perm_mono (d : PuzzleData) (s : PuzzleState) (e : Edge) :
    (∀ x ∈ s.permanent_edges, x ∈ (connect_edge d s e).permanent_edges) ∧
    (∀ x ∈ s.permanent_vertices, x ∈ (connect_edge d s e).permanent_vertices) := by
  by_cases hc : canon e ∈ s.connected_edges
  · rw [connect_edge_already hc]
    exact ⟨fun x hx => hx, fun x hx => hx⟩
  · rw [connect_edge_eq hc]
    constructor
    · exact fun x hx => foldl_inv (fun st => x ∈ st.permanent_edges)
        (fun s' t _ hmem => connectTriStep_perm_mono d s' t x hmem) _ hx
    · exact fun x hx => foldl_inv (fun st => x ∈ st.permanent_vertices)
        (fun s' t _ hmem => connectTriStep_pv_mono d s' t x hmem) _ hx

theorem dfv_perm_eq {d : PuzzleData} {s s' : PuzzleState} {v : Nat}
    (hsome : disconnect_from_vertex d s v = some s') :
    s'.permanent_edges = s.permanent_edges ∧
    s'.permanent_vertices = s.permanent_vertices := by
  cases hcbv : s.connected_edges_by_vertex v with
  | none =>
    rw [dfv_none_cbv hcbv] at hsome
    cases hsome
  | some ce =>
    cases hpcv : s.permanent_edges_by_vertex v with
    | none =>
      rw [dfv_none_pcv hpcv] at hsome
      cases hsome
    | some pc =>
      rw [dfv_eq hcbv hpcv] at hsome
      split_ifs at hsome with hguard
      · injection hsome with heq
        rw [← heq]
        exact ⟨rfl, rfl⟩
      · injection hsome with heq
        rw [← heq]
        constructor
        · refine foldl_preserve _ (fun st => st.permanent_edges) ?_ ce s
          intro st e
          split_ifs with hpe
          · rfl
          · exact disconnect_edge_perm d st e
        · refine foldl_preserve _ (fun st => st.permanent_vertices) ?_ ce s
          intro st e
          split_ifs with hpe
          · rfl
          · exact disconnect_edge_pv d st e

theorem applyOp_perm_mono {d : PuzzleData} {s s' : PuzzleState} {op : Op}
    (h : applyOp d s op = some s') :
    (∀ x ∈ s.permanent_edges, x ∈ s'.permanent_edges) ∧
    (∀ x ∈ s.permanent_vertices, x ∈ s'.permanent_vertices) := by
  cases op with
  | connect e =>
    injection h with heq
    rw [← heq]
    exact connect_edge_perm_mono d s e
  | disconnect e =>
    injection h with heq
    rw [← heq]
    rw [disconnect_edge_perm, disconnect_edge_pv]
    exact ⟨fun x hx => hx, fun x hx => hx⟩
  | fromVertex v =>
    obtain ⟨h1, h2⟩ := dfv_perm_eq h
    rw [h1, h2]
    exact ⟨fun x hx => hx, fun x hx => hx⟩

/-- C6: monotonic permanence. Once an edge is in `permanent_edges` (or a
vertex in `permanent_vertices`), no subsequent sequence of
`connect_edge`/`disconnect_edge`/`disconnect_from_vertex` calls ever removes
it: any successfully completing sequence of operations only grows both sets.
(Proved for every starting state, hence for every reachable one.) -/
theorem C6_monotonic_permanence {d : PuzzleData} {ops : List Op} :
    ∀ {s s' : PuzzleState}, applyOps d s ops = some s' →
      (∀ x ∈ s.permanent_edges, x ∈ s'.permanent_edges) ∧
      (∀ x ∈ s.permanent_vertices, x ∈ s'.permanent_vertices) := by
  induction ops with
  | nil =>
    intro s s' h
    injection h with heq
    rw [← heq]
    exact ⟨fun x hx => hx, fun x hx => hx⟩
  | cons op rest ih =>
    intro s s' h
    unfold applyOps at h
    cases hop : applyOp d s op with
    | none => rw [hop] at h; cases h
    | some s1 =>
      rw [hop] at h
      obtain ⟨h1, h2⟩ := applyOp_perm_mono hop
      obtain ⟨h3, h4⟩ := ih h
      exact ⟨fun x hx => h3 x (h1 x hx), fun x hx => h4 x (h2 x hx)⟩

/-- Witness for C6: from the solved one-triangle state, disconnecting an edge
leaves every permanent edge and vertex in place. -/
theorem C6_witness :
    applyOps dataA sA3 [Op.disconnect (0, 1)] =
      some (disconnect_edge dataA sA3 (0, 1)) ∧
    (∀ x ∈ sA3.permanent_edges,
      x ∈ (disconnect_edge dataA sA3 (0, 1)).permanent_edges) ∧
    (∀ x ∈ sA3.permanent_vertices,
      x ∈ (disconnect_edge dataA sA3 (0, 1)).permanent_vertices) := by
  have h : applyOps dataA sA3 [Op.disconnect (0, 1)] =
      some (disconnect_edge dataA sA3 (0, 1)) := rfl
  exact ⟨h, (C6_monotonic_permanence h).1, (C6_monotonic_permanence h).2⟩

/-- C7: idempotence. In every reachable state, calling `connect_edge` twice in
a row with the same edge yields the same state as calling it once, and
likewise for `disconnect_edge`. -/
theorem C7_idempotent {d : PuzzleData} {s : PuzzleState} (hw : WF d)
    (hr : Reachable d s) (e : Edge) :
    connect_edge d (connect_edge d s e) e = connect_edge d s e ∧
    disconnect_edge d (disconnect_edge d s e) e = disconnect_edge d s e := by
  have hnd : s.connected_edges.Nodup := (Reachable_Inv hw hr).2.1.1
  constructor
  · have hcmem : canon e ∈ (connect_edge d s e).connected_edges := by
      by_cases hc : canon e ∈ s.connected_edges
      · rw [connect_edge_already hc]
        exact hc
      · rw [connect_edge_eq hc, connFold_conn]
        exact List.mem_cons_self _ _
    exact connect_edge_already hcmem
  · have hnmem : canon e ∉ (disconnect_edge d s e).connected_edges := by
      by_cases hc : canon e ∈ s.connected_edges
      · rw [disconnect_edge_eq hc, disconnFold_conn]
        exact nodup_not_mem_erase hnd _
      · rw [disconnect_edge_already hc]
        exact hc
    exact disconnect_edge_already hnmem

/-- Witness for C7 at a concrete input: connecting (0,1) twice from the
one-edge state equals connecting it once, and similarly for disconnecting. -/
theorem C7_witness :
    WF dataA ∧
      (connect_edge dataA (connect_edge dataA sA1 (0, 1)) (0, 1) =
        connect_edge dataA sA1 (0, 1) ∧
      disconnect_edge dataA (disconnect_edge dataA sA1 (0, 1)) (0, 1) =
        disconnect_edge dataA sA1 (0, 1)) :=
  ⟨by decide, C7_idempotent (by decide) reach_sA1 (0, 1)⟩

/-- C8: connecting a valid vertex pair whose canonical form is not a mesh edge
(no key in the edge-to-triangles index) records the canonical pair in
`connected_edges` and in `connected_edges_by_vertex` for both endpoints, and
leaves `triangle_reqs`, `unlocked_triangles`, `permanent_edges`,
`permanent_edges_by_vertex` and `permanent_vertices` unchanged. -/
theorem C8_nonmesh_connect {d : PuzzleData} {s : PuzzleState} (hw : WF d)
    (hr : Reachable d s) {p : Edge} (hv : d.is_valid_edge p = true)
    (hm : d.triangles_with_edge (canon p) = none) :
    (∀ x, x ∈ (connect_edge d s p).connected_edges ↔
      (x = canon p ∨ x ∈ s.connected_edges)) ∧
    canon p ∈ connAt (connect_edge d s p) p.1 ∧
    canon p ∈ connAt (connect_edge d s p) p.2 ∧
    (connect_edge d s p).triangle_reqs = s.triangle_reqs ∧
    (connect_edge d s p).unlocked_triangles = s.unlocked_triangles ∧
    (connect_edge d s p).permanent_edges = s.permanent_edges ∧
    (connect_edge d s p).permanent_edges_by_vertex = s.permanent_edges_by_vertex ∧
    (connect_edge d s p).permanent_vertices = s.permanent_vertices := by
  have he : d.edge_to_triangles (canon p) = [] := by
    by_contra hne
    unfold PuzzleData.triangles_with_edge at hm
    rw [if_neg hne] at hm
    cases hm
  by_cases hc : canon p ∈ s.connected_edges
  · have hcbv := (Reachable_Inv hw hr).2.1.2.2.1
    rw [connect_edge_already hc]
    refine ⟨fun x => ⟨Or.inr, ?_⟩, ?_, ?_, rfl, rfl, rfl, rfl, rfl⟩
    · rintro (rfl | hx)
      · exact hc
      · exact hx
    · refine (hcbv p.1 (canon p)).mpr ⟨hc, ?_⟩
      exact (canon_incident p p.1).mpr (Or.inl rfl)
    · refine (hcbv p.2 (canon p)).mpr ⟨hc, ?_⟩
      exact (canon_incident p p.2).mpr (Or.inr rfl)
  · rw [connect_edge_eq hc, he, List.foldl_nil]
    refine ⟨fun x => List.mem_cons, ?_, ?_, rfl, rfl, rfl, rfl, rfl⟩
    · rw [mem_connAt_connectRecord]
      exact Or.inl ⟨rfl, Or.inl rfl⟩
    · rw [mem_connAt_connectRecord]
      exact Or.inl ⟨rfl, Or.inr rfl⟩

/-- Witness for C8: connecting the non-mesh pair (3,1) on the 4-vertex
one-triangle mesh. -/
theorem C8_witness :
    WF dataB ∧ dataB.is_valid_edge (3, 1) = true ∧
      dataB.triangles_with_edge (canon (3, 1)) = none ∧
      ((∀ x, x ∈ (connect_edge dataB sB0 (3, 1)).connected_edges ↔
        (x = canon (3, 1) ∨ x ∈ sB0.connected_edges)) ∧
      canon (3, 1) ∈ connAt (connect_edge dataB sB0 (3, 1)) 3 ∧
      canon (3, 1) ∈ connAt (connect_edge dataB sB0 (3, 1)) 1 ∧
      (connect_edge dataB sB0 (3, 1)).triangle_reqs = sB0.triangle_reqs ∧
      (connect_edge dataB sB0 (3, 1)).unlocked_triangles = sB0.unlocked_triangles ∧
      (connect_edge dataB sB0 (3, 1)).permanent_edges = sB0.permanent_edges ∧
      (connect_edge dataB sB0 (3, 1)).permanent_edges_by_vertex =
        sB0.permanent_edges_by_vertex ∧
      (connect_edge dataB sB0 (3, 1)).permanent_vertices = sB0.permanent_vertices) :=
  ⟨by decide, by decide, by decide,
    C8_nonmesh_connect (by decide) reach_sB0 (by decide) (by decide)⟩

/-! ## The vertex-cancel bulk disconnect -/

/-- Effect of `disconnect_from_vertex`'s loop on `connected_edges`: folding
the guarded `disconnect_edge` over a snapshot list `L` of canonical edges
removes exactly the members of `L` that are not permanent. -/
theorem dfvFold_conn (d : PuzzleData) (L : List Edge) :
    ∀ (s : PuzzleState), s.connected_edges.Nodup → (∀ e ∈ L, canon e = e) →
      ∀ x, x ∈ (L.foldl (fun s e => if e ∈ s.permanent_edges then s
          else disconnect_edge d s e) s).connected_edges ↔
        (x ∈ s.connected_edges ∧ ¬ (x ∈ L ∧ x ∉ s.permanent_edges)) := by
  induction L with
  | nil =>
    intro s _ _ x
    simp
  | cons e L ih =>
    intro s hnd hcanon x
    rw [List.foldl_cons]
    by_cases hpe : e ∈ s.permanent_edges
    · rw [if_pos hpe, ih s hnd (fun e' he' => hcanon e' (List.mem_cons_of_mem _ he')) x]
      constructor
      · rintro ⟨h1, h2⟩
        refine ⟨h1, fun hcon => h2 ⟨?_, hcon.2⟩⟩
        rcases List.mem_cons.mp hcon.1 with rfl | hx
        · exact absurd hpe hcon.2
        · exact hx
      · rintro ⟨h1, h2⟩
        exact ⟨h1, fun hcon => h2 ⟨List.mem_cons_of_mem _ hcon.1, hcon.2⟩⟩
    · rw [if_neg hpe]
      have hce : canon e = e := hcanon e (List.mem_cons_self _ _)
      have hperm : (disconnect_edge d s e).permanent_edges = s.permanent_edges :=
        disconnect_edge_perm d s e
      have hconn : (disconnect_edge d s e).connected_edges =
          s.connected_edges.erase e := by
        by_cases hc : canon e ∈ s.connected_edges
        · rw [disconnect_edge_eq hc, disconnFold_conn]
          show s.connected_edges.erase (canon e) = _
          rw [hce]
        · rw [disconnect_edge_already hc, List.erase_of_not_mem (by rwa [hce] at hc)]
      have hnd' : (disconnect_edge d s e).connected_edges.Nodup := by
        rw [hconn]
        exact nodup_erase hnd e
      rw [ih _ hnd' (fun e' he' => hcanon e' (List.mem_cons_of_mem _ he')) x, hconn,
        hperm, nodup_mem_erase hnd]
      constructor
      · rintro ⟨⟨hxe, hx⟩, h2⟩
        refine ⟨hx, ?_⟩
        rintro ⟨hxm, hxp⟩
        rcases List.mem_cons.mp hxm with rfl | hxL
        · exact hxe rfl
        · exact h2 ⟨hxL, hxp⟩
      · rintro ⟨hx, h2⟩
        by_cases hxe : x = e
        · subst hxe
          exact absurd ⟨List.mem_cons_self _ _, hpe⟩ h2
        · exact ⟨⟨hxe, hx⟩, fun hcon => h2 ⟨List.mem_cons_of_mem _ hcon.1, hcon.2⟩⟩

/-- C3 (amended): for a vertex `v` that has entries in both
`connected_edges_by_vertex` and `permanent_edges_by_vertex` (otherwise the
call panics, see C4), `disconnect_from_vertex` succeeds; it is a no-op when
`v ∈ permanent_vertices` and the *count* of edges currently connected at `v`
equals the permanent-edge counter at `v` (the code's guard compares counts,
not the sets themselves), and otherwise it removes from `connected_edges`
exactly those edges currently connected at `v` that are not in
`permanent_edges`. -/
theorem C3_disconnect_from_vertex {d : PuzzleData} {s : PuzzleState} (hw : WF d)
    (hr : Reachable d s) {v : Nat} {ce : List Edge} {pc : Nat}
    (hcbv : s.connected_edges_by_vertex v = some ce)
    (hpcv : s.permanent_edges_by_vertex v = some pc) :
    ∃ s', disconnect_from_vertex d s v = some s' ∧
      ((v ∈ s.permanent_vertices ∧ ce.length = pc) → s' = s) ∧
      (¬ (v ∈ s.permanent_vertices ∧ ce.length = pc) →
        ∀ x, x ∈ s'.connected_edges ↔
          (x ∈ s.connected_edges ∧ ¬ (x ∈ connAt s v ∧ x ∉ s.permanent_edges))) := by
  obtain ⟨hU, ⟨hnd, hcanon, hmem, hvnd⟩, hP, hR⟩ := Reachable_Inv hw hr
  have hceAt : connAt s v = ce := by
    unfold connAt
    rw [hcbv]
    rfl
  rw [dfv_eq hcbv hpcv]
  by_cases hguard : v ∈ s.permanent_vertices ∧ ce.length = pc
  · rw [if_pos hguard]
    exact ⟨s, rfl, fun _ => rfl, fun hng => absurd hguard hng⟩
  · rw [if_neg hguard]
    refine ⟨_, rfl, fun hg => absurd hg hguard, fun _ => ?_⟩
    intro x
    rw [dfvFold_conn d ce s hnd ?_ x, hceAt]
    intro e' he'
    have : e' ∈ s.connected_edges := (hmem v e').mp (by rw [hceAt]; exact he') |>.1
    exact hcanon e' this

/-- Counterexample to C3 as stated: on the 4-vertex one-triangle mesh, reach
the state `sB5` (triangle solved and permanent, extra non-mesh edge (0,3)
connected, then edge (0,1) disconnected). Vertex 0 has been an endpoint of
connected edges, edge (0,3) is currently connected at 0 and is *not*
permanent, so the claim's "otherwise" branch demands that
`disconnect_from_vertex 0` remove (0,3) — but the count-based guard (2
connected at 0, counter 2, 0 permanent) fires and the call leaves
`connected_edges` unchanged, keeping (0,3). -/
theorem C3_counterexample :
    Reachable dataB sB5 ∧
    (0, 3) ∈ connAt sB5 0 ∧
    (0, 3) ∉ sB5.permanent_edges ∧
    (disconnect_from_vertex dataB sB5 0).map PuzzleState.connected_edges =
      some sB5.connected_edges ∧
    (0, 3) ∈ sB5.connected_edges :=
  ⟨reach_sB5, by decide, by decide, by decide, by decide⟩

/-- Witness for the amended C3: spec Scenario C — after the triangle of
`dataA` is solved, both maps have entries for vertex 0 and the guard fires,
so `disconnect_from_vertex` returns the state unchanged. -/
theorem C3_witness :
    WF dataA ∧ sA3.connected_edges_by_vertex 0 = some [(0, 2), (0, 1)] ∧
      sA3.permanent_edges_by_vertex 0 = some 2 ∧
      (∃ s', disconnect_from_vertex dataA sA3 0 = some s' ∧
        ((0 ∈ sA3.permanent_vertices ∧ ([(0, 2), (0, 1)] : List Edge).length = 2) →
          s' = sA3) ∧
        (¬ (0 ∈ sA3.permanent_vertices ∧ ([(0, 2), (0, 1)] : List Edge).length = 2) →
          ∀ x, x ∈ s'.connected_edges ↔
            (x ∈ sA3.connected_edges ∧
              ¬ (x ∈ connAt sA3 0 ∧ x ∉ sA3.permanent_edges)))) :=
  ⟨by decide, by decide, by decide,
    C3_disconnect_from_vertex (by decide) reach_sA3 (by decide) (by decide)⟩

/-- C4 (the code at the failing input): `disconnect_from_vertex` on the valid
vertex 0 of the one-triangle mesh, in the freshly constructed state, panics —
the guard indexes `connected_edges_by_vertex[&0]` (and
`permanent_edges_by_vertex[&0]`) with `HashMap`'s panicking `Index` operator
and neither entry exists.  The caller (lib.rs line 65) reaches this by
double-clicking any vertex before connecting an edge there, so the claim's
"completes normally even when v has never been an endpoint" is contradicted
by the code. -/
theorem C4_dfv_panics_on_untouched_vertex :
    0 < dataA.numVertices ∧
    disconnect_from_vertex dataA (PuzzleState.from_data dataA) 0 = none :=
  ⟨by decide, rfl⟩

/-- C5 (amended): for every reachable state and every vertex `v` with at
least one incident mesh edge, if every mesh edge incident to `v` is in
`permanent_edges` then `v ∈ permanent_vertices`.  (The converse claimed by
the spec is false: see the counterexample.) -/
theorem C5_permanent_vertex_of_all_edges {d : PuzzleData} {s : PuzzleState}
    (hw : WF d) (hr : Reachable d s) {v : Nat}
    (hd : 1 ≤ d.num_edges_from_vertex v)
    (hall : ∀ e ∈ d.vertices_to_edges v, e ∈ s.permanent_edges) :
    v ∈ s.permanent_vertices := by
  obtain ⟨hU, hC, ⟨hle, hpv, hnd⟩, hR⟩ := Reachable_Inv hw hr
  have hsub : d.vertices_to_edges v ⊆
      s.permanent_edges.filter (fun e => decide (e.1 = v ∨ e.2 = v)) := by
    intro e he
    refine List.mem_filter.mpr ⟨hall e he, ?_⟩
    unfold PuzzleData.vertices_to_edges at he
    exact (List.mem_filter.mp he).2
  have hndv : (d.vertices_to_edges v).Nodup := by
    unfold PuzzleData.vertices_to_edges
    exact (List.nodup_dedup _).filter _
  have hcard : d.num_edges_from_vertex v ≤
      (s.permanent_edges.filter (fun e => decide (e.1 = v ∨ e.2 = v))).length :=
    calc d.num_edges_from_vertex v = (d.vertices_to_edges v).toFinset.card :=
          (List.toFinset_card_of_nodup hndv).symm
      _ ≤ (s.permanent_edges.filter
            (fun e => decide (e.1 = v ∨ e.2 = v))).toFinset.card :=
          Finset.card_le_card
            (fun x hx => List.mem_toFinset.mpr (hsub (List.mem_toFinset.mp hx)))
      _ ≤ _ := List.toFinset_card_le _
  have := hle v
  exact (hpv v).mpr ⟨hd, by omega⟩

/-- Counterexample to C5 as stated (the iff fails in both directions):

1. On `dataB`, vertex 3 has no incident mesh edge, so after solving the
triangle every incident mesh edge of 3 is (vacuously) permanent, yet 3 is
never inserted into `permanent_vertices`.

2. On `dataE`, once triangles (0,1,2) and (0,1,3) unlock, the permanence
loop bumps vertex 0's counter twice for the shared edge (0,1); the counter
reaches 4 = `num_edges_from_vertex 0` and vertex 0 is marked permanent even
though its incident mesh edge (0,4) is not in `permanent_edges`. -/
theorem C5_counterexample :
    (Reachable dataB sB3 ∧ dataB.vertices_to_edges 3 = [] ∧
      3 ∉ sB3.permanent_vertices ∧ 3 < dataB.numVertices) ∧
    (Reachable dataE sE5 ∧ 0 ∈ sE5.permanent_vertices ∧
      (0, 4) ∈ dataE.vertices_to_edges 0 ∧ (0, 4) ∉ sE5.permanent_edges) :=
  ⟨⟨reach_sB3, by decide, by decide, by decide⟩,
    ⟨reach_sE5, by decide, by decide, by decide⟩⟩

/-- Witness for the amended C5: on the solved one-triangle mesh, vertex 0 has
two incident mesh edges, both permanent, and is indeed marked permanent. -/
theorem C5_witness :
    WF dataA ∧ 1 ≤ dataA.num_edges_from_vertex 0 ∧
      (∀ e ∈ dataA.vertices_to_edges 0, e ∈ sA3.permanent_edges) ∧
      0 ∈ sA3.permanent_vertices :=
  ⟨by decide, by decide, by decide,
    C5_permanent_vertex_of_all_edges (by decide) reach_sA3 (by decide) (by decide)⟩

/-! ## The color-index bound of the triangle parser -/

theorem from_reader_snoc (ls : List (List String)) (l : List String) :
    from_reader (ls ++ [l]) =
      (from_reader ls).bind (fun acc => processLine acc l) := by
  unfold from_reader
  rw [List.foldlM_append]
  cases ls.foldlM processLine (⟨[], [], []⟩ : ParseAcc) with
  | error er => rfl
  | ok acc =>
    show (processLine acc l >>= fun b => pure b) = processLine acc l
    cases processLine acc l <;> rfl

/-- C9: in `from_reader`'s triangle branch, a 4-token line whose three vertex
indices parse and are distinct is *accepted* when the color-index token
parses to exactly the current number of colors (the bound check
`color_idx > colors.len()` is inclusive), and *rejected* with
`InvalidTriangle` when it parses to any strictly greater value; and the same
holds for a full `from_reader` run extended by that line. -/
theorem C9_color_index_bound {acc : ParseAcc} {v0 v1 v2 cs : String}
    {i0 i1 i2 : Nat}
    (h0 : parseVertIdx acc v0 = Except.ok i0)
    (h1 : parseVertIdx acc v1 = Except.ok i1)
    (h2 : parseVertIdx acc v2 = Except.ok i2)
    (hd : ¬ (i0 = i1 ∨ i0 = i2 ∨ i1 = i2)) :
    (parseU32? cs = some acc.colors.length →
      processLine acc [v0, v1, v2, cs] =
        Except.ok { acc with
          triangles := acc.triangles ++ [(i0, i1, i2, acc.colors.length)] }) ∧
    (∀ k, parseU32? cs = some k → acc.colors.length < k →
      processLine acc [v0, v1, v2, cs] =
        Except.error GeometryError.InvalidTriangle) ∧
    (∀ ls, from_reader ls = Except.ok acc →
      parseU32? cs = some acc.colors.length →
      from_reader (ls ++ [[v0, v1, v2, cs]]) =
        Except.ok { acc with
          triangles := acc.triangles ++ [(i0, i1, i2, acc.colors.length)] }) ∧
    (∀ ls k, from_reader ls = Except.ok acc → parseU32? cs = some k →
      acc.colors.length < k →
      from_reader (ls ++ [[v0, v1, v2, cs]]) =
        Except.error GeometryError.InvalidTriangle) := by
  have hok : parseU32? cs = some acc.colors.length →
      processLine acc [v0, v1, v2, cs] =
        Except.ok { acc with
          triangles := acc.triangles ++ [(i0, i1, i2, acc.colors.length)] } := by
    intro hcs
    simp [processLine, h0, h1, h2, hd, hcs]
  have herr : ∀ k, parseU32? cs = some k → acc.colors.length < k →
      processLine acc [v0, v1, v2, cs] =
        Except.error GeometryError.InvalidTriangle := by
    intro k hcs hlt
    simp [processLine, h0, h1, h2, hd, hcs, hlt]
  refine ⟨hok, herr, ?_, ?_⟩
  · intro ls hls hcs
    rw [from_reader_snoc, hls]
    exact hok hcs
  · intro ls k hls hcs hlt
    rw [from_reader_snoc, hls]
    exact herr k hcs hlt

/-- The accumulator after parsing three vertices and one color. -/
def accW : ParseAcc := ⟨[("0", "0"), ("1", "0"), ("0", "1")], [(255, 0, 0)], []⟩

/-- Witness for C9: with one color parsed, the triangle line
`0 1 2 1` (color index = color count) is accepted and `0 1 2 2` is rejected
with `InvalidTriangle`. -/
theorem C9_witness :
    parseVertIdx accW "0" = Except.ok 0 ∧
    parseU32? "1" = some accW.colors.length ∧
    parseU32? "2" = some 2 ∧ accW.colors.length < 2 ∧
    processLine accW ["0", "1", "2", "1"] =
      Except.ok { accW with triangles := [(0, 1, 2, 1)] } ∧
    processLine accW ["0", "1", "2", "2"] =
      Except.error GeometryError.InvalidTriangle := by
  have h := @C9_color_index_bound accW "0" "1" "2" "1" 0 1 2
    (by decide) (by decide) (by decide) (by decide)
  have h2 := @C9_color_index_bound accW "0" "1" "2" "2" 0 1 2
    (by decide) (by decide) (by decide) (by decide)
  exact ⟨by decide, by decide, by decide, by decide,
    h.1 (by decide), h2.2.1 2 (by decide) (by decide)⟩

end Vertex
